import Mathlib

/-!
Verification of the GraphQL-to-EdgeQL translator
(`edgedb/lang/graphql/translator.py`).

The development shallowly embeds the translator: Python runtime values
become the inductive `GQLValue`, the GraphQL input AST and the EdgeQL
output AST become inductive types mirroring the node classes used by the
source, the schema/catalog (an external collaborator consulted read-only)
is modelled as finite association tables, and the translator itself is a
family of functions in an explicit state-and-error passing style.  The
mutable per-call state (`self._vars`) carries, for every variable, its
value and its criticality flag; a ghost `readLog` field records the
variables whose values were read while evaluating a conditional
directive, mirroring exactly the one program point that sets the flag.
Fragment recursion is bounded by an explicit fuel parameter; exhausting
it models the interpreter recursion limit.
-/

namespace GQLTrans

/-- Python runtime values as they flow through the translator: `None`,
booleans, ints, floats (represented as rationals), strings and lists. -/
inductive GQLValue where
  | vnull
  | vbool (b : Bool)
  | vint (n : Int)
  | vfloat (q : Rat)
  | vstr (s : String)
  | vlist (xs : List GQLValue)

mutual
/-- Python `repr` of a runtime value, as used by the `{!r}` format
conversions in error messages.  String quoting is modelled for strings
without embedded quotes; float rendering is abstracted to the rational
rendering. -/
def pyRepr : GQLValue → String
  | .vnull => "None"
  | .vbool true => "True"
  | .vbool false => "False"
  | .vint n => toString n
  | .vfloat q => toString q
  | .vstr s => "\x27" ++ s ++ "\x27"
  | .vlist xs => "[" ++ String.intercalate ", " (pyReprList xs) ++ "]"

/-- The `repr` of each element of a list value. -/
def pyReprList : List GQLValue → List String
  | [] => []
  | v :: vs => pyRepr v :: pyReprList vs
end

/-- Python `repr` of a plain string (used for argument and variable
names in messages). -/
def pyStr (s : String) : String := "\x27" ++ s ++ "\x27"

/-- The schema implementation types referenced by `PY_COERCION_MAP` and
`GQL_TYPE_NAMES_MAP`: `s_types.string.Str`, `s_types.int.Int`,
`s_types.numeric.Float`, `s_types.numeric.Decimal`, `s_types.uuid.UUID`,
`s_types.boolean.Bool`. -/
inductive ImplType where
  | Str
  | Int
  | Float
  | Decimal
  | UUID
  | Bool
deriving DecidableEq

/-- Python `str()` of an implementation-type class.
Modelled from the spec: the classes live outside the excerpt; their
textual rendering follows the import paths used by the source. -/
def implTypeStr : ImplType → String
  | .Str => "<class \x27edgedb.lang.schema.types.string.Str\x27>"
  | .Int => "<class \x27edgedb.lang.schema.types.int.Int\x27>"
  | .Float => "<class \x27edgedb.lang.schema.types.numeric.Float\x27>"
  | .Decimal => "<class \x27edgedb.lang.schema.types.numeric.Decimal\x27>"
  | .UUID => "<class \x27edgedb.lang.schema.types.uuid.UUID\x27>"
  | .Bool => "<class \x27edgedb.lang.schema.types.boolean.Bool\x27>"

/-- The `PY_COERCION_MAP`: maps the native kind of a runtime value
(`type(val)`) to the tuple of implementation-type classes accepting it.
`None` and lists have no entry (a lookup on them is a Python
`KeyError`).
Modelled from the spec: the six implementation classes are distinct
leaves of the external schema type hierarchy, so the source’s
`issubclass(base_t, PY_COERCION_MAP[type(val)])` test amounts to
membership of `base_t` in the mapped tuple. -/
def pyCoercionMap : GQLValue → Option (List ImplType)
  | .vstr _ => some [.Str, .UUID]
  | .vint _ => some [.Int, .Float, .Decimal, .UUID]
  | .vfloat _ => some [.Float, .Decimal]
  | .vbool _ => some [.Bool]
  | _ => none

/-- The `GQL_TYPE_NAMES_MAP`: GraphQL scalar type names to implementation
types; absent names raise `KeyError` in the source. -/
def gqlTypeNames : String → Option ImplType
  | "String" => some .Str
  | "Int" => some .Int
  | "Float" => some .Float
  | "Boolean" => some .Bool
  | "ID" => some .UUID
  | _ => none

/-- GraphQL literal nodes (`gqlast` literals).  A `var` carries the
`Variable.value` token, used both as the variable-environment key and
(with its first character stripped) as the emitted constant index. -/
inductive GQLLiteral where
  | scalar (value : GQLValue)
  | list (xs : List GQLLiteral)
  | object
  | var (value : String)

mutual
/-- The `.value` attribute of a literal node, read by `_should_include`
for non-variable conditions and by `_get_module`.  For list literals the
attribute holds the element nodes and for object literals a field table;
both are abstracted to non-boolean values (only their non-boolean-ness
is ever observed). -/
def litRawValue : GQLLiteral → GQLValue
  | .scalar v => v
  | .var v => .vstr v
  | .list xs => .vlist (litRawValueList xs)
  | .object => .vnull

/-- The `.value` of each element literal. -/
def litRawValueList : List GQLLiteral → List GQLValue
  | [] => []
  | l :: ls => litRawValue l :: litRawValueList ls
end

mutual
/-- The `.topython()` on a default-value literal.  Scalars and lists decode
structurally; variable and object defaults do not occur in well-formed
documents and are abstracted like `litRawValue`. -/
def litToPython : GQLLiteral → GQLValue
  | .scalar v => v
  | .var v => .vstr v
  | .list xs => .vlist (litToPythonList xs)
  | .object => .vnull

/-- The `.topython()` of each element literal. -/
def litToPythonList : List GQLLiteral → List GQLValue
  | [] => []
  | l :: ls => litToPython l :: litToPythonList ls
end

/-- An argument node (`name`, `value`). -/
structure Argument where
  name : String
  value : GQLLiteral

/-- A directive node (`name`, `arguments`). -/
structure Directive where
  name : String
  arguments : List Argument

/-- A selection: field, inline fragment, or fragment spread. -/
inductive Selection where
  | field (name : String) (arguments : List Argument)
      (directives : List Directive) (selection_set : Option (List Selection))
  | inlineFrag (onType : Option String) (directives : List Directive)
      (selections : List Selection)
  | spread (name : String) (directives : List Directive)

/-- The `.directives` attribute shared by all three selection kinds. -/
def Selection.directives : Selection → List Directive
  | .field _ _ ds _ => ds
  | .inlineFrag _ ds _ => ds
  | .spread _ ds => ds

/-- A declared variable type: scalar type name plus nullability and
list flags.  For list types the source reads the inner name via
`decl.type.name.name`; both accesses are modelled by the single `name`
field. -/
structure VarType where
  name : String
  nullable : Bool
  list : Bool

/-- A variable declaration: name, declared type, optional default
literal (`decl.value`). -/
structure VarDecl where
  name : String
  type : VarType
  value : Option GQLLiteral

/-- An operation definition.  `selections` embeds
`definition.selection_set.selections` and `varDecls` embeds
`definition.variables`. -/
structure OperationDefinition where
  name : Option String
  type : Option String
  varDecls : List VarDecl
  directives : List Directive
  selections : List Selection

/-- A named fragment definition (`onType` embeds the `.on` declared
type). -/
structure FragmentDef where
  name : String
  onType : Option String
  directives : List Directive
  selections : List Selection

/-- A document definition. -/
inductive Definition where
  | op (d : OperationDefinition)
  | frag (f : FragmentDef)

/-- EdgeQL operators used by the translator (`ast.ops` and
`qlast.UNION`). -/
inductive QLOp where
  | EQ
  | NE
  | IN
  | NOT_IN
  | AND
  | UNION
deriving DecidableEq

/-- A path step: a root `PathStepNode(expr=concept)` or a
`LinkExprNode(expr=LinkNode(name=...))`. -/
inductive QLPathStep where
  | pathStep (expr : String)
  | linkExpr (name : String)

mutual
/-- EdgeQL expression nodes produced by the translator.  A
`ConstantNode` holds a value (Python `None`, i.e. `vnull`, when unset)
and an optional variable index; a `PathNode` holds its steps and an
optional selection shape. -/
inductive QLExpr where
  | constant (value : GQLValue) (index : Option String)
  | sequence (elements : List QLExpr)
  | path (steps : List QLPathStep) (pathspec : Option (List SelectPathSpec))
  | binop (left : QLExpr) (op : QLOp) (right : QLExpr)

/-- The `SelectPathSpecNode`: a link expression, an optional filter, and an
optional nested shape. -/
inductive SelectPathSpec where
  | mk (expr : QLPathStep) (wh : Option QLExpr)
      (pathspec : Option (List SelectPathSpec))
end

/-- The `SelectExprNode(expr=...)`. -/
structure SelectExpr where
  expr : QLExpr

/-- The `SelectQueryNode`: namespace alias declarations (each holding an
optional module name), targets, filter, and an optional set operation
with its two operands. -/
inductive SelectQuery where
  | mk (namespaces : List (Option String)) (targets : List SelectExpr)
      (wh : Option QLExpr) (op : Option QLOp)
      (op_larg : Option SelectQuery) (op_rarg : Option SelectQuery)

/-- The `UNION` combination node built by `_process_definition`
(unspecified constructor fields default to empty/none). -/
def unionNode (a b : SelectQuery) : SelectQuery :=
  .mk [] [] none (some .UNION) (some a) (some b)

/-- Association-list lookup (first match), modelling Python `dict`
read access over unique keys. -/
def alookup {κ β : Type} [DecidableEq κ] : List (κ × β) → κ → Option β
  | [], _ => none
  | (k, b) :: rest, key => if k = key then some b else alookup rest key

/-- Association-list insert-or-replace, modelling Python `dict`
assignment (`d[k] = v`): an existing key keeps its position and takes
the new value, a new key is appended. -/
def dinsert {κ β : Type} [DecidableEq κ] : List (κ × β) → κ → β → List (κ × β)
  | [], key, v => [(key, v)]
  | (k, b) :: rest, key, v =>
      if k = key then (k, v) :: rest else (k, b) :: dinsert rest key v

/-- Per-type information held by the schema oracle: the short name
(`type.name.name`) and the implementation type
(`get_implementation_type`), when the type is a scalar property type. -/
structure TypeInfo where
  shortName : String
  impl : Option ImplType

/-- The Schema Oracle, an external collaborator consulted read-only.
Modelled from the spec: types are identified by their lookup key;
`types` backs `schema.get(name)`, `qualTypes` backs
`schema.get((module, name))`, `pointers` backs
`type.resolve_pointer(schema, link).target`, and `subs` lists the
strict subtype pairs of the (reflexive) `issubclass` relation. -/
structure Schema where
  types : List (String × TypeInfo)
  qualTypes : List ((Option String × String) × String)
  pointers : List ((String × String) × String)
  subs : List (String × String)

/-- Translation errors: the translator’s own `GraphQLValidationError`,
the schema oracle’s `SchemaError`, and other uncaught Python exceptions
(identified by their kind). -/
inductive Err where
  | validation (msg : String)
  | schemaError
  | pyError (kind : String)

/-- The `schema.get(name)`: resolves a plain type name or raises
`SchemaError`. -/
def schemaGet (sch : Schema) (name : String) : Except Err String :=
  match alookup sch.types name with
  | some _ => .ok name
  | none => .error .schemaError

/-- The `schema.get((module, name))`: resolves a qualified type reference
or raises `SchemaError`. -/
def schemaGetQual (sch : Schema) (key : Option String × String) :
    Except Err String :=
  match alookup sch.qualTypes key with
  | some t => .ok t
  | none => .error .schemaError

/-- The `type.resolve_pointer(schema, link).target`: a failed resolution
surfaces as a schema-side error. -/
def resolvePointer (sch : Schema) (t link : String) : Except Err String :=
  match alookup sch.pointers (t, link) with
  | some t2 => .ok t2
  | none => .error .schemaError

/-- The `type.name.name`: the short name of a type (every well-formed
oracle backs each key with an entry). -/
def typeShortName (sch : Schema) (t : String) : String :=
  match alookup sch.types t with
  | some i => i.shortName
  | none => ""

/-- The `type.get_implementation_type()`. -/
def typeImpl (sch : Schema) (t : String) : Except Err ImplType :=
  match alookup sch.types t with
  | some i =>
      match i.impl with
      | some b => .ok b
      | none => .error (.pyError "AttributeError")
  | none => .error (.pyError "AttributeError")

/-- The `a.issubclass(b)`: the oracle’s reflexive subtype test.
Modelled from the spec: reflexive, with the strict pairs supplied by
the `subs` table. -/
def schemaIssub (sch : Schema) (a b : String) : Bool :=
  a = b || sch.subs.any (fun p => p.1 = a && p.2 = b)

/-- The mutable per-call translator state: `self._vars` (variable name
to value and criticality flag) plus the ghost `readLog` recording, in
order, every variable whose current value was read while evaluating an
`include`/`skip` condition (the single program point that sets the
flag). -/
structure TState where
  vars : List (String × (GQLValue × Bool))
  readLog : List String

/-- The per-call read-only context: the schema and the fragment table
built by `translate`. -/
structure Ctx where
  schema : Schema
  fragments : List (String × FragmentDef)

/-- The `var[1] = True`: set the criticality flag of a variable in place. -/
def setCritical : List (String × (GQLValue × Bool)) → String →
    List (String × (GQLValue × Bool))
  | [], _ => []
  | (n, (v, c)) :: rest, key =>
      if n = key then (n, (v, true)) :: setCritical rest key
      else (n, (v, c)) :: setCritical rest key

/-- The criticality flag of a variable (false when absent). -/
def critFlag (vars : List (String × (GQLValue × Bool))) (n : String) : Bool :=
  match alookup vars n with
  | some (_, c) => c
  | none => false

/-- The `GraphQLTranslator._get_module`: scan the directive list for an
`edgedb` directive and return its `module` argument (last such
directive wins; a directive without a `module` argument is a
`KeyError`).  Module values are string-valued in well-formed documents;
non-string values are not distinguished from absence. -/
def getModule : List Directive → Option String → Except Err (Option String)
  | [], module => .ok module
  | d :: rest, module =>
    if d.name = "edgedb" then
      let args := d.arguments.foldl
        (fun acc a => dinsert acc a.name (litRawValue a.value)) []
      match alookup args "module" with
      | none => .error (.pyError "KeyError")
      | some (.vstr s) => getModule rest (some s)
      | some _ => getModule rest none
    else getModule rest module

/-- Evaluation of a conditional directive’s `if` argument: the first
argument named `if` is required (`IndexError` otherwise); a variable
reference reads the variable’s current value from the environment,
marks it critical, and records the read in the ghost log; any other
literal contributes its `.value`. -/
def evalIfCond (d : Directive) (s : TState) : Except Err (GQLValue × TState) :=
  match (d.arguments.filter (fun a => a.name = "if")).head? with
  | none => .error (.pyError "IndexError")
  | some a =>
    match a.value with
    | .var v =>
      match alookup s.vars v with
      | none => .error (.pyError "KeyError")
      | some (val, _) =>
          .ok (val, { vars := setCritical s.vars v,
                      readLog := s.readLog ++ [v] })
    | lit => .ok (litRawValue lit, s)

/-- The `GraphQLTranslator._should_include`: evaluate the conditional
directives in order.  The condition must be a boolean; `include` with
`False` or `skip` with `True` short-circuits to exclusion. -/
def shouldInclude : List Directive → TState → Except Err (Bool × TState)
  | [], s => .ok (true, s)
  | d :: rest, s =>
    if d.name = "include" ∨ d.name = "skip" then
      match evalIfCond d s with
      | .error e => .error e
      | .ok (.vbool b, s1) =>
        if d.name = "include" ∧ b = false then .ok (false, s1)
        else if d.name = "skip" ∧ b = true then .ok (false, s1)
        else shouldInclude rest s1
      | .ok (_, _) => .error (.validation
          ("\x27if\x27 argument of " ++ d.name ++
           " directive must be a Boolean"))
    else shouldInclude rest s

/-- One iteration of `_populate_variable_defaults`: reject a
non-nullable declaration carrying a default, seed a missing entry from
the default (null when there is none), reject a null value for a
non-nullable declaration, and validate the seeded value against the
declared scalar type (list-shaped when the declared type is a list). -/
def validateValueLoop (name : String) (baseT : ImplType) :
    List GQLValue → Except Err Unit
  | [] => .ok ()
  | v :: vs =>
    match pyCoercionMap v with
    | none => .error (.pyError "KeyError")
    | some accepted =>
      if baseT ∈ accepted then validateValueLoop name baseT vs
      else .error (.validation
        ("value " ++ pyRepr v ++ " is not of type " ++ implTypeStr baseT ++
         " accepted by " ++ pyStr name))

/-- The `GraphQLTranslator._validate_value`: in sequence mode the value
must be a list and each element is checked against the coercion table;
otherwise the single value is checked. -/
def validateValue (name : String) (value : GQLValue) (baseT : ImplType)
    (asSequence : Bool) : Except Err Unit :=
  if asSequence then
    match value with
    | .vlist xs => validateValueLoop name baseT xs
    | _ => .error (.validation
        ("argument " ++ pyStr name ++ " should be a List"))
  else validateValueLoop name baseT [value]

/-- The default seeded for a missing variable entry: the declared
default decoded with `.topython()`, or null when no default is
declared. -/
def seedVal (decl : VarDecl) : GQLValue :=
  match decl.value with
  | none => .vnull
  | some l => litToPython l

/-- One declaration step of `_populate_variable_defaults`. -/
def populateStep (decl : VarDecl) (s : TState) : Except Err (Unit × TState) :=
  match decl.value, decl.type.nullable with
  | some _, false => .error (.validation
      ("variable " ++ pyStr decl.name ++
       " cannot be non-nullable and have a default"))
  | _, _ =>
    let vars1 :=
      match alookup s.vars decl.name with
      | none => s.vars ++ [(decl.name, (seedVal decl, false))]
      | some _ => s.vars
    let s1 : TState := { s with vars := vars1 }
    match alookup vars1 decl.name with
    | none => .error (.pyError "KeyError")
    | some (val, _) =>
      match val with
      | .vnull =>
        if decl.type.nullable then .ok ((), s1)
        else .error (.validation
          ("non-nullable variable " ++ pyStr decl.name ++
           " is missing a value"))
      | _ =>
        if decl.type.list then
          match val with
          | .vlist _ =>
            match gqlTypeNames decl.type.name with
            | none => .error (.pyError "KeyError")
            | some t =>
              match validateValue decl.name val t true with
              | .error e => .error e
              | .ok _ => .ok ((), s1)
          | _ => .error (.validation
              ("variable " ++ pyStr decl.name ++ " should be a List"))
        else
          match gqlTypeNames decl.type.name with
          | none => .error (.pyError "KeyError")
          | some t =>
            match validateValue decl.name val t false with
            | .error e => .error e
            | .ok _ => .ok ((), s1)

/-- The declaration loop of `_populate_variable_defaults`. -/
def populateLoop : List VarDecl → TState → Except Err (Unit × TState)
  | [], s => .ok ((), s)
  | d :: ds, s =>
    match populateStep d s with
    | .error e => .error e
    | .ok (_, s1) => populateLoop ds s1

/-- The `GraphQLTranslator._populate_variable_defaults` (an empty
declaration list returns at once). -/
def populateVariableDefaults (decls : List VarDecl) (s : TState) :
    Except Err (Unit × TState) :=
  match decls with
  | [] => .ok ((), s)
  | _ => populateLoop decls s

mutual
/-- The `GraphQLTranslator._process_literal`: lists become sequence nodes,
object literals are rejected, variables become indexed constants (the
index is the variable token with its first character stripped), and
scalars become plain constants. -/
def processLiteral : GQLLiteral → Except Err QLExpr
  | .list xs =>
    match processLiteralList xs with
    | .error e => .error e
    | .ok els => .ok (.sequence els)
  | .object => .error (.validation
      "don\x27t know how to translate an Object literal to EdgeQL")
  | .var v => .ok (.constant .vnull (some (v.drop 1)))
  | .scalar v => .ok (.constant v none)

/-- Elementwise literal translation. -/
def processLiteralList : List GQLLiteral → Except Err (List QLExpr)
  | [] => .ok []
  | l :: ls =>
    match processLiteral l with
    | .error e => .error e
    | .ok e =>
      match processLiteralList ls with
      | .error e2 => .error e2
      | .ok es => .ok (e :: es)
end

/-- If `l` starts with `pat`, the remainder after `pat`. -/
def dropPrefixChars : List Char → List Char → Option (List Char)
  | rest, [] => some rest
  | [], _ :: _ => none
  | c :: rest, p :: ps => if c = p then dropPrefixChars rest ps else none

/-- Fuelled splitter over character lists (each step consumes at least
one character, so `length + 1` fuel always suffices). -/
def splitCharsF (pat : List Char) : Nat → List Char → List (List Char)
  | 0, l => [l]
  | _ + 1, [] => [[]]
  | fuel + 1, c :: rest =>
    match dropPrefixChars (c :: rest) pat with
    | some rem => [] :: splitCharsF pat fuel rem
    | none =>
      match splitCharsF pat fuel rest with
      | [] => [[c]]
      | seg :: segs => (c :: seg) :: segs

/-- Python `str.split(sep)` with a non-empty separator: left-to-right,
non-overlapping; adjacent separators yield empty segments. -/
def pySplit (s sep : String) : List String :=
  if sep.data = [] then [s]
  else (splitCharsF sep.data (s.data.length + 1) s.data).map
    (fun cs => String.mk cs)

/-- Substring test (used to inspect error messages): `pat` occurs in
`s` exactly when splitting on it yields more than one segment. -/
def strContains (s pat : String) : Bool :=
  2 ≤ (pySplit s pat).length

/-- The `GQL_OPS_MAP`: trailing four-character operator suffixes. -/
def gqlOpsMap : String → Option QLOp
  | "__eq" => some .EQ
  | "__ne" => some .NE
  | "__in" => some .IN
  | "__ni" => some .NOT_IN
  | _ => none

/-- Split an argument name into its operator (from the trailing
four-character suffix, exact-equals when absent) and the remaining
path portion, as in the head of `_process_arguments`. -/
def parseArgName (n : String) : QLOp × String :=
  match gqlOpsMap (n.drop (n.length - 4)) with
  | some op => (op, n.take (n.length - 4))
  | none => (.EQ, n)

/-- Truthiness of `getattr(value, "index", None)` on a translated
constant. -/
def constIndexTruthy : QLExpr → Bool
  | .constant _ (some ix) => ix ≠ ""
  | _ => false

/-- The `el.value` for an element of a translated sequence. -/
def elemValue : QLExpr → Except Err GQLValue
  | .constant v _ => .ok v
  | _ => .error (.pyError "AttributeError")

/-- The `el.value` across a sequence’s elements. -/
def elemValues : List QLExpr → Except Err (List GQLValue)
  | [] => .ok []
  | e :: es =>
    match elemValue e with
    | .error er => .error er
    | .ok v =>
      match elemValues es with
      | .error er => .error er
      | .ok vs => .ok (v :: vs)

/-- The decoded check value of an argument, as computed in the body of
`_process_arguments`: a variable reference with a truthy index reads
the variable’s current value from the environment; a sequence collects
its element values; any other constant contributes its own value. -/
def decodeCheckValue (vars : List (String × (GQLValue × Bool)))
    (lit : GQLLiteral) (value : QLExpr) : Except Err GQLValue :=
  if constIndexTruthy value then
    match lit with
    | .var v =>
      match alookup vars v with
      | none => .error (.pyError "KeyError")
      | some (val, _) => .ok val
    | _ => .error (.pyError "AttributeError")
  else
    match value with
    | .sequence els =>
      match elemValues els with
      | .error e => .error e
      | .ok vs => .ok (.vlist vs)
    | .constant v _ => .ok v
    | _ => .error (.pyError "AttributeError")

/-- Walk the link steps of a filter path through the schema
(`target.resolve_pointer(...).target` per step). -/
def walkSteps (sch : Schema) (t : String) :
    List QLPathStep → Except Err String
  | [] => .ok t
  | .linkExpr n :: more =>
    match resolvePointer sch t n with
    | .error e => .error e
    | .ok t2 => walkSteps sch t2 more
  | .pathStep _ :: _ => .error (.pyError "AttributeError")

/-- The `GraphQLTranslator._validate_arg`: a null value is always accepted
with no schema consultation; otherwise the argument’s target path is
resolved through the schema and the value validated against the
target’s implementation type (the message names the last link step). -/
def validateArg (ctx : Ctx) (steps : List QLPathStep) (value : GQLValue)
    (asSequence : Bool) : Except Err Unit :=
  match value with
  | .vnull => .ok ()
  | _ =>
    match steps with
    | [] => .error (.pyError "IndexError")
    | .linkExpr _ :: _ => .error .schemaError
    | .pathStep concept :: rest =>
      match schemaGet ctx.schema concept with
      | .error e => .error e
      | .ok t0 =>
        match walkSteps ctx.schema t0 rest with
        | .error e => .error e
        | .ok target =>
          match rest.getLast? with
          | none => .error (.pyError "UnboundLocalError")
          | some (.pathStep _) => .error (.pyError "AttributeError")
          | some (.linkExpr lastName) =>
            match typeImpl ctx.schema target with
            | .error e => .error e
            | .ok baseT => validateValue lastName value baseT asSequence

/-- Whether an operator takes a sequence operand
(`op in (ast.ops.IN, ast.ops.NOT_IN)`). -/
def isMembership (op : QLOp) : Bool :=
  op = .IN ∨ op = .NOT_IN

/-- The `GraphQLTranslator._process_arguments`: per argument, resolve the
operator suffix, extend the path prefix with the double-underscore
segments, translate the value, decode the check value, validate it
(list-shaped exactly for membership operators) and emit the
`(path, op, value)` triple. -/
def processArguments (ctx : Ctx) (pfx : List QLPathStep) :
    List Argument → TState → Except Err (List (QLExpr × QLOp × QLExpr) × TState)
  | [], s => .ok ([], s)
  | arg :: rest, s =>
    let pr := parseArgName arg.name
    let steps := pfx ++ (pySplit pr.2 "__").map QLPathStep.linkExpr
    match processLiteral arg.value with
    | .error e => .error e
    | .ok value =>
      match decodeCheckValue s.vars arg.value value with
      | .error e => .error e
      | .ok checkVal =>
        match validateArg ctx steps checkVal (isMembership pr.1) with
        | .error e => .error e
        | .ok _ =>
          match processArguments ctx pfx rest s with
          | .error e => .error e
          | .ok (res, s1) =>
            .ok ((QLExpr.path steps none, pr.1, value) :: res, s1)

/-- The `GraphQLTranslator._join_expressions`: a single expression stands
alone; multiple expressions fold left-associatively under the given
operator (`AND` at both call sites); an empty list is an
`IndexError`. -/
def joinExpressions (op : QLOp) : List QLExpr → Except Err QLExpr
  | [] => .error (.pyError "IndexError")
  | [e] => .ok e
  | e1 :: e2 :: rest =>
    .ok (rest.foldl (fun acc e => QLExpr.binop acc op e)
          (QLExpr.binop e1 op e2))

/-- Build the `BinOpNode` comparisons from the argument triples. -/
def binopsOf (trs : List (QLExpr × QLOp × QLExpr)) : List QLExpr :=
  trs.map (fun t => QLExpr.binop t.1 t.2.1 t.2.2)

/-- The `GraphQLTranslator._process_select_where`: root-level filter of a
top-level selection (the path prefix is the root concept step). -/
def processSelectWhere (ctx : Ctx) (sel : Selection) (s : TState) :
    Except Err (Option QLExpr × TState) :=
  match sel with
  | .field n args _ _ =>
    match args with
    | [] => .ok (none, s)
    | _ =>
      match processArguments ctx [.pathStep n] args s with
      | .error e => .error e
      | .ok (trs, s1) =>
        match joinExpressions .AND (binopsOf trs) with
        | .error e => .error e
        | .ok e => .ok (some e, s1)
  | _ => .error (.pyError "AttributeError")

/-- The `GraphQLTranslator._process_path_where`: field-level filter; the
path prefix is the base path (root step plus link steps). -/
def processPathWhere (ctx : Ctx) (base : List String) (args : List Argument)
    (s : TState) : Except Err (Option QLExpr × TState) :=
  match args with
  | [] => .ok (none, s)
  | _ =>
    match base with
    | [] => .error (.pyError "IndexError")
    | b0 :: brest =>
      match processArguments ctx
          (QLPathStep.pathStep b0 :: brest.map QLPathStep.linkExpr) args s with
      | .error e => .error e
      | .ok (trs, s1) =>
        match joinExpressions .AND (binopsOf trs) with
        | .error e => .error e
        | .ok e => .ok (some e, s1)

/-- The fragment-shaped view passed to `_validate_fragment_type`: an
inline fragment has no name; a spread passes the looked-up fragment
definition. -/
structure FragLike where
  name : Option String
  onType : Option String
  directives : List Directive

/-- Truthiness of `frag.name`. -/
def pyTruthyName : Option String → Bool
  | none => false
  | some s => s ≠ ""

/-- The `repr(frag.name)` as interpolated by the single placeholder of the
inline-fragment message (the second format argument of the source is
ignored by `str.format`). -/
def pyReprOptStr : Option String → String
  | none => "None"
  | some s => pyStr s

/-- The incompatibility message raised by `_validate_fragment_type`:
a (truthy-)named fragment names the fragment and the base type’s short
name; otherwise the single placeholder receives `frag.name` (the
intended base type name is passed as an ignored extra argument). -/
def incompatMsg (sch : Schema) (frag : FragLike) (baseType : String) : String :=
  if pyTruthyName frag.name then
    "fragment " ++ pyReprOptStr frag.name ++ " is incompatible with " ++
      pyStr (typeShortName sch baseType)
  else
    "inline fragment is incompatible with " ++ pyReprOptStr frag.name

/-- Resolve a fragment’s declared type: the fragment’s own `edgedb`
module directive qualifies the `on` name for the schema lookup
(`SchemaError` propagates uncaught here). -/
def resolveFragType (ctx : Ctx) (directives : List Directive)
    (onName : String) : Except Err String :=
  match getModule directives none with
  | .error e => .error e
  | .ok m => schemaGetQual ctx.schema (m, onName)

/-- Walk a chain of link names from a type through the schema. -/
def walkLinks (sch : Schema) (t : String) : List String → Except Err String
  | [] => .ok t
  | n :: more =>
    match resolvePointer sch t n with
    | .error e => .error e
    | .ok t2 => walkLinks sch t2 more

/-- Resolve the base path’s type: `schema.get(base[0])` then pointer
resolution along the remaining link names. -/
def resolveBasePath (ctx : Ctx) : List String → Except Err String
  | [] => .error (.pyError "IndexError")
  | b0 :: rest =>
    match schemaGet ctx.schema b0 with
    | .error e => .error e
    | .ok t0 => walkLinks ctx.schema t0 rest

/-- The `GraphQLTranslator._validate_fragment_type`: a fragment without a
declared type passes; otherwise the declared type and the base path’s
resolved type must be related by `issubclass` in either direction. -/
def validateFragmentType (ctx : Ctx) (base : List String) (frag : FragLike) :
    Except Err Unit :=
  match frag.onType with
  | none => .ok ()
  | some onName =>
    match resolveFragType ctx frag.directives onName with
    | .error e => .error e
    | .ok fragType =>
      match resolveBasePath ctx base with
      | .error e => .error e
      | .ok baseType =>
        if schemaIssub ctx.schema baseType fragType ∨
            schemaIssub ctx.schema fragType baseType then .ok ()
        else .error (.validation (incompatMsg ctx.schema frag baseType))

mutual
/-- The `GraphQLTranslator._process_pathspec`: expand a selection list into
a shape, checking directive-driven exclusion before dispatching on the
selection kind; fragment selections are spliced (extended) into the
parent list. -/
def processPathspec (ctx : Ctx) : Nat → List String → List Selection →
    TState → Except Err (List SelectPathSpec × TState)
  | 0, _, _, _ => .error (.pyError "RecursionError")
  | _ + 1, _, [], s => .ok ([], s)
  | fuel + 1, base, sel :: rest, s =>
    match shouldInclude sel.directives s with
    | .error e => .error e
    | .ok (false, s1) => processPathspec ctx fuel base rest s1
    | .ok (true, s1) =>
      match sel with
      | .field n args _ ss =>
        match processField ctx fuel base n args ss s1 with
        | .error e => .error e
        | .ok (spec, s2) =>
          match processPathspec ctx fuel base rest s2 with
          | .error e => .error e
          | .ok (specs, s3) => .ok (spec :: specs, s3)
      | .inlineFrag onType ds fsels =>
        match processInlineFragment ctx fuel base onType ds fsels s1 with
        | .error e => .error e
        | .ok (fspecs, s2) =>
          match processPathspec ctx fuel base rest s2 with
          | .error e => .error e
          | .ok (specs, s3) => .ok (fspecs ++ specs, s3)
      | .spread n _ =>
        match processSpread ctx fuel base n s1 with
        | .error e => .error e
        | .ok (fspecs, s2) =>
          match processPathspec ctx fuel base rest s2 with
          | .error e => .error e
          | .ok (specs, s3) => .ok (fspecs ++ specs, s3)

/-- The `GraphQLTranslator._process_field`: extend the base path, build the
field’s filter from its arguments, and recurse into a nested selection
set when one is present. -/
def processField (ctx : Ctx) : Nat → List String → String → List Argument →
    Option (List Selection) → TState → Except Err (SelectPathSpec × TState)
  | 0, _, _, _, _, _ => .error (.pyError "RecursionError")
  | fuel + 1, base, n, args, ss, s =>
    match processPathWhere ctx (base ++ [n]) args s with
    | .error e => .error e
    | .ok (wh, s1) =>
      match ss with
      | none => .ok (.mk (.linkExpr n) wh none, s1)
      | some fsels =>
        match processPathspec ctx fuel (base ++ [n]) fsels s1 with
        | .error e => .error e
        | .ok (specs, s2) => .ok (.mk (.linkExpr n) wh (some specs), s2)

/-- The `GraphQLTranslator._process_inline_fragment`: validate the declared
type against the base path, then expand the fragment’s selections at
the same base path. -/
def processInlineFragment (ctx : Ctx) : Nat → List String → Option String →
    List Directive → List Selection → TState →
    Except Err (List SelectPathSpec × TState)
  | 0, _, _, _, _, _ => .error (.pyError "RecursionError")
  | fuel + 1, base, onType, ds, fsels, s =>
    match validateFragmentType ctx base
        { name := none, onType := onType, directives := ds } with
    | .error e => .error e
    | .ok _ => processPathspec ctx fuel base fsels s

/-- The `GraphQLTranslator._process_spread`: look the fragment up in the
per-document table (`KeyError` when absent), validate its declared
type, and expand its selections at the same base path. -/
def processSpread (ctx : Ctx) : Nat → List String → String → TState →
    Except Err (List SelectPathSpec × TState)
  | 0, _, _, _ => .error (.pyError "RecursionError")
  | fuel + 1, base, n, s =>
    match alookup ctx.fragments n with
    | none => .error (.pyError "KeyError")
    | some frag =>
      match validateFragmentType ctx base
          { name := some frag.name, onType := frag.onType,
            directives := frag.directives } with
      | .error e => .error e
      | .ok _ => processPathspec ctx fuel base frag.selections s
end

/-- The `GraphQLTranslator._process_selset`: check that the root concept
exists (re-raising the oracle’s `SchemaError` as a validation error),
then build the root path with its shape.  A selection without a nested
selection set, or a non-field selection, is an attribute access on
`None` in the source. -/
def processSelset (ctx : Ctx) (fuel : Nat) (sel : Selection) (s : TState) :
    Except Err (SelectExpr × TState) :=
  match sel with
  | .field n _ _ ss =>
    match schemaGet ctx.schema n with
    | .error .schemaError => .error (.validation
        (pyStr n ++ " does not exist in the schema"))
    | .error e => .error e
    | .ok _ =>
      match ss with
      | none => .error (.pyError "AttributeError")
      | some sels =>
        match processPathspec ctx fuel [n] sels s with
        | .error e => .error e
        | .ok (ps, s1) =>
          .ok (⟨QLExpr.path [.pathStep n] (some ps)⟩, s1)
  | _ => .error (.pyError "AttributeError")

/-- The per-selection loop of `_process_definition`: each top-level
selection yields a select query; successive queries are folded into a
left-associated union. -/
def processDefLoop (ctx : Ctx) (fuel : Nat) (module : Option String)
    (acc : Option SelectQuery) : List Selection → TState →
    Except Err (Option SelectQuery × TState)
  | [], s => .ok (acc, s)
  | sel :: rest, s =>
    match processSelset ctx fuel sel s with
    | .error e => .error e
    | .ok (target, s1) =>
      match processSelectWhere ctx sel s1 with
      | .error e => .error e
      | .ok (wh, s2) =>
        let selquery : SelectQuery :=
          .mk [module] [target] wh none none none
        match acc with
        | none => processDefLoop ctx fuel module (some selquery) rest s2
        | some q =>
          processDefLoop ctx fuel module (some (unionNode q selquery)) rest s2

/-- The `GraphQLTranslator._process_definition`: only query operations are
supported; variable defaults are populated first, then the module
directive resolved, then the top-level selections translated and
unioned. -/
def processDefinition (ctx : Ctx) (fuel : Nat) (defn : OperationDefinition)
    (s : TState) : Except Err (Option SelectQuery × TState) :=
  if defn.type = none ∨ defn.type = some "query" then
    match populateVariableDefaults defn.varDecls s with
    | .error e => .error e
    | .ok (_, s1) =>
      match getModule defn.directives none with
      | .error e => .error e
      | .ok module => processDefLoop ctx fuel module none defn.selections s1
  else .error (.pyError "ValueError")

/-- Insertion of a `(name, value)` pair into a name-sorted list. -/
def insertByName (p : String × GQLValue) :
    List (String × GQLValue) → List (String × GQLValue)
  | [] => [p]
  | q :: rest =>
    if p.1 ≤ q.1 then p :: q :: rest else q :: insertByName p rest

/-- The `critvars.sort()`: Python sorts the `(name, value)` tuples; with
unique names this orders by name. -/
def sortPairs : List (String × GQLValue) → List (String × GQLValue)
  | [] => []
  | p :: rest => insertByName p (sortPairs rest)

/-- The result recorded per operation: the target query, the sorted
critical-variable list, and the ghost per-operation read log. -/
def OpResult := Option SelectQuery × List (String × GQLValue) × List String

/-- The critical-variable extraction of `translate`: entries whose flag
is set, as `(name, value)` pairs, sorted. -/
def critVarsOf (vars : List (String × (GQLValue × Bool))) :
    List (String × GQLValue) :=
  sortPairs ((vars.filter (fun e => e.2.2)).map (fun e => (e.1, e.2.1)))

/-- The per-definition loop of `GraphQLTranslator.translate`: each
operation definition gets a fresh variable environment (and a fresh
ghost log), is translated, and its `(query, critvars)` result is
recorded under its name (later duplicate names overwrite). -/
def translateLoop (ctx : Ctx) (fuel : Nat)
    (varAssign : List (String × GQLValue)) :
    List Definition → List (Option String × OpResult) → TState →
    Except Err (List (Option String × OpResult) × TState)
  | [], acc, s => .ok (acc, s)
  | .frag _ :: rest, acc, s => translateLoop ctx fuel varAssign rest acc s
  | .op d :: rest, acc, s =>
    let s0 : TState :=
      { vars := varAssign.map (fun p => (p.1, (p.2, false))), readLog := [] }
    match processDefinition ctx fuel d s0 with
    | .error e => .error e
    | .ok (q, s1) =>
      translateLoop ctx fuel varAssign rest
        (dinsert acc d.name (q, critVarsOf s1.vars, s1.readLog)) s1

/-- The fragment table built at the head of `translate` (a dict
comprehension over the fragment definitions; duplicate names keep the
last definition). -/
def buildFragments (defs : List Definition) : List (String × FragmentDef) :=
  defs.foldl
    (fun acc d =>
      match d with
      | .frag f => dinsert acc f.name f
      | .op _ => acc) []

/-- The translator object: the schema supplied at construction plus the
reused per-call instance fields `_fragments` and `_vars` (with the
ghost log). -/
structure Translator where
  schema : Schema
  fragments : List (String × FragmentDef) := []
  vars : List (String × (GQLValue × Bool)) := []
  readLog : List String := []

/-- The pure core of `GraphQLTranslator.translate`: the result mapping
is computed from the schema, document, and supplied varAssign alone
(the instance’s previous `_fragments`/`_vars` are overwritten before
any read). -/
def translateCore (fuel : Nat) (sch : Schema) (gqltree : List Definition)
    (varAssign : List (String × GQLValue)) (s : TState) :
    Except Err (List (Option String × OpResult) × TState) :=
  translateLoop { schema := sch, fragments := buildFragments gqltree } fuel
    varAssign gqltree [] s

/-- The `GraphQLTranslator.translate`: rebuild the fragment table, run the
per-definition loop, and leave the last operation’s environment on the
instance. -/
def translateT (fuel : Nat) (t : Translator) (gqltree : List Definition)
    (varAssign : List (String × GQLValue)) :
    Except Err (List (Option String × OpResult) × Translator) :=
  match translateCore fuel t.schema gqltree varAssign
      { vars := t.vars, readLog := t.readLog } with
  | .error e => .error e
  | .ok (res, s) =>
    .ok (res, { schema := t.schema, fragments := buildFragments gqltree,
                vars := s.vars, readLog := s.readLog })

/-- The state invariant tying the criticality flags to the ghost read
log: variable keys are unique (they come from a Python dict) and a
variable’s flag is set exactly when its value was read while evaluating
a conditional directive. -/
def InvI (s : TState) : Prop :=
  (s.vars.map Prod.fst).Nodup ∧
    ∀ n, critFlag s.vars n = true ↔ n ∈ s.readLog

/-- The per-operation property recorded by `translateLoop`: the
critical-variable list is sorted by name and its names are exactly the
variables in the operation’s ghost read log. -/
def GoodEntry (e : Option String × OpResult) : Prop :=
  List.Chain' (fun a b : String × GQLValue => a.1 ≤ b.1) e.2.2.1 ∧
    ∀ n, n ∈ e.2.2.1.map Prod.fst ↔ n ∈ e.2.2.2

/-- Sample schema for the C1 witness: a single root concept. -/
def c1Schema : Schema :=
  { types := [("User", ⟨"User", none⟩)], qualTypes := [],
    pointers := [], subs := [] }

/-- Sample translator for the C1 witness. -/
def c1T : Translator := { schema := c1Schema }

/-- Sample document for the C1 witness: one query with a nested field
guarded by `include(if: $v)`. -/
def c1Doc : List Definition :=
  [.op { name := none, type := none, varDecls := [], directives := [],
         selections := [.field "User" [] []
           (some [.field "name" []
             [⟨"include", [⟨"if", .var "v"⟩]⟩] none])] }]

/-- Sample variable assignment for the C1 witness: `v` drives the
directive, `w` is unused. -/
def c1Vars : List (String × GQLValue) :=
  [("v", .vbool true), ("w", .vint 3)]

/-- The query produced for the C1 witness document. -/
def c1Query : SelectQuery :=
  .mk [none]
    [⟨QLExpr.path [.pathStep "User"]
       (some [SelectPathSpec.mk (.linkExpr "name") none none])⟩]
    none none none none

/-- The result map produced for the C1 witness document. -/
def c1Res : List (Option String × OpResult) :=
  [(none, (some c1Query, [("v", GQLValue.vbool true)], ["v"]))]

/-- The post-call translator for the C1 witness document. -/
def c1TAfter : Translator :=
  { schema := c1Schema, fragments := [],
    vars := [("v", (.vbool true, true)), ("w", (.vint 3, false))],
    readLog := ["v"] }

/-- Sample selection for the C2 witness: a field guarded by
`skip(if: true)`. -/
def c2Sel : Selection :=
  .field "name" [] [⟨"skip", [⟨"if", .scalar (.vbool true)⟩]⟩]
    (some [.field "deep" [] [] none])

/-- Sample state for the C2 witness. -/
def c2S : TState := { vars := [], readLog := [] }

/-- Sample context for the C2 witness. -/
def c2Ctx : Ctx := { schema := c1Schema, fragments := [] }

/-- Sample operation for the C3 witness: `$x` is declared `Int!` (not
nullable) with a default literal. -/
def c3Defn : OperationDefinition :=
  { name := none, type := none,
    varDecls := [⟨"x", ⟨"Int", false, false⟩, some (.scalar (.vint 1))⟩],
    directives := [], selections := [.field "User" [] [] (some [])] }

/-- The value-acceptance table in the words of the specification:
integer values are accepted by the integer, floating-point, decimal and
opaque-identifier types; text values by the text and opaque-identifier
types; real values by the floating-point and decimal types; boolean
values by the boolean type only. -/
def specAccepted : GQLValue → List ImplType
  | .vint _ => [.Int, .Float, .Decimal, .UUID]
  | .vstr _ => [.Str, .UUID]
  | .vfloat _ => [.Float, .Decimal]
  | .vbool _ => [.Bool]
  | _ => []

/-- Whether a value is of one of the four scalar native kinds covered
by the coercion table. -/
def isScalarKind : GQLValue → Bool
  | .vbool _ => true
  | .vint _ => true
  | .vfloat _ => true
  | .vstr _ => true
  | _ => false

/-- The per-selection select queries of an operation, in selection
order (the specification-style decomposition of the body of
`_process_definition`, to be compared with the accumulator loop of the
source). -/
def buildSelQueries (ctx : Ctx) (fuel : Nat) (module : Option String) :
    List Selection → TState → Except Err (List SelectQuery × TState)
  | [], s => .ok ([], s)
  | sel :: rest, s =>
    match processSelset ctx fuel sel s with
    | .error e => .error e
    | .ok (target, s1) =>
      match processSelectWhere ctx sel s1 with
      | .error e => .error e
      | .ok (wh, s2) =>
        match buildSelQueries ctx fuel module rest s2 with
        | .error e => .error e
        | .ok (qs, s3) =>
          .ok (SelectQuery.mk [module] [target] wh none none none :: qs, s3)

/-- Left fold of select queries into a left-associated union chain,
starting from an optional accumulator. -/
def foldUnion (acc : Option SelectQuery) (qs : List SelectQuery) :
    Option SelectQuery :=
  qs.foldl
    (fun a q => some
      (match a with
       | none => q
       | some x => unionNode x q)) acc

/-- Schema for the C5 counterexample: two unrelated types; `Frag` is
reachable under its unqualified name. -/
def c5Schema : Schema :=
  { types := [("User", ⟨"User", none⟩), ("FragT", ⟨"Frag", none⟩)],
    qualTypes := [((none, "Frag"), "FragT")],
    pointers := [], subs := [] }

/-- Translator for the C5 counterexample. -/
def c5T : Translator := { schema := c5Schema }

/-- Document for the C5 counterexample: a named fragment on `Frag`
spread under the unrelated root `User`. -/
def c5Doc : List Definition :=
  [.frag { name := "f", onType := some "Frag", directives := [],
           selections := [.field "name" [] [] none] },
   .op { name := none, type := none, varDecls := [], directives := [],
         selections := [.field "User" [] [] (some [.spread "f" []])] }]

/-- Schema for the C6 and C10 witnesses: `User` with a text-typed
`name` link. -/
def c6Schema : Schema :=
  { types := [("User", ⟨"User", none⟩), ("nameT", ⟨"nameT", some .Str⟩)],
    qualTypes := [], pointers := [(("User", "name"), "nameT")], subs := [] }

/-- Context for the C6 and C10 witnesses. -/
def c6Ctx : Ctx := { schema := c6Schema, fragments := [] }

/-- Schema for the C8 counterexample and witness: the two root
concepts. -/
def c8Schema : Schema :=
  { types := [("User", ⟨"User", none⟩), ("Group", ⟨"Group", none⟩)],
    qualTypes := [], pointers := [], subs := [] }

/-- Translator for the C8 counterexample and witness. -/
def c8T : Translator := { schema := c8Schema }

/-- Document for the C8 counterexample: two top-level selections, each
with no arguments and no nested selection set at all. -/
def c8DocNone : List Definition :=
  [.op { name := none, type := none, varDecls := [], directives := [],
         selections := [.field "User" [] [] none,
                        .field "Group" [] [] none] }]

/-- A translator with stale instance fields left over from an earlier
call, for the C9 witness. -/
def c9T2 : Translator :=
  { schema := c1Schema,
    fragments := [("stale", ⟨"stale", none, [], []⟩)],
    vars := [("stale", (.vint 9, true))], readLog := ["stale"] }

/-- State for the C10 witness: `$x` is currently bound to null. -/
def c10S : TState := { vars := [("$x", (.vnull, false))], readLog := [] }

/-- Translator whose schema relates the fragment type to the base type,
for the C5 witness. -/
def c5RelSchema : Schema :=
  { types := [("User", ⟨"User", none⟩), ("FragT", ⟨"Frag", none⟩)],
    qualTypes := [((none, "Frag"), "FragT")],
    pointers := [], subs := [("FragT", "User")] }

/-- Context over the related schema for the C5 witness. -/
def c5RelCtx : Ctx := { schema := c5RelSchema, fragments := [] }

/-- The triple produced for the C6 witness argument. -/
def c6Triple : QLExpr × QLOp × QLExpr :=
  (QLExpr.path [.pathStep "User", .linkExpr "name"] none, QLOp.EQ,
   QLExpr.constant (.vstr "Alice") none)

/-- Context for the C7 and C8 witnesses. -/
def c8Ctx : Ctx := { schema := c8Schema, fragments := [] }

/-- Operation for the C7 witness: two top-level selections with empty
selection sets. -/
def c7Defn : OperationDefinition :=
  { name := none, type := none, varDecls := [], directives := [],
    selections := [.field "User" [] [] (some []),
                   .field "Group" [] [] (some [])] }

/-- First select query of the C7 witness. -/
def c7Q1 : SelectQuery :=
  .mk [none] [⟨QLExpr.path [.pathStep "User"] (some [])⟩]
    none none none none

/-- Second select query of the C7 witness. -/
def c7Q2 : SelectQuery :=
  .mk [none] [⟨QLExpr.path [.pathStep "Group"] (some [])⟩]
    none none none none

/-- A single-operation document with two top-level selections, each
with no arguments and an empty nested selection set. -/
def twoEmptyDoc (onm : Option String) (n1 n2 : String) : List Definition :=
  [.op { name := onm, type := none, varDecls := [], directives := [],
         selections := [.field n1 [] [] (some []),
                        .field n2 [] [] (some [])] }]

/-- The select query produced for a root selection with an empty
selection set: the root path with an empty shape (no identity field is
added by the translator). -/
def emptySelQuery (module : Option String) (n : String) : SelectQuery :=
  .mk [module] [⟨QLExpr.path [.pathStep n] (some [])⟩] none none none none

/-- The observable result of a translate call: the per-operation map,
discarding the mutated translator instance. -/
def resultOf (r : Except Err (List (Option String × OpResult) × Translator)) :
    Except Err (List (Option String × OpResult)) :=
  r.map Prod.fst

/-! ### Association list and sorting lemmas -/

theorem alookup_none_iff {β : Type} (l : List (String × β)) (k : String) :
    alookup l k = none ↔ k ∉ l.map Prod.fst := by
  induction l with
  | nil => simp [alookup]
  | cons p rest ih =>
    obtain ⟨n, b⟩ := p
    by_cases h : n = k
    · subst h; simp [alookup]
    · simp [alookup, h, ih, Ne.symm h]

theorem mem_of_alookup_eq_some {β : Type} {l : List (String × β)} {k : String}
    {b : β} (h : alookup l k = some b) : (k, b) ∈ l := by
  induction l with
  | nil => simp [alookup] at h
  | cons p rest ih =>
    obtain ⟨n, b'⟩ := p
    by_cases hn : n = k
    · subst hn
      simp [alookup] at h
      subst h
      exact List.mem_cons_self _ _
    · simp [alookup, hn] at h
      exact List.mem_cons_of_mem _ (ih h)

theorem alookup_eq_some_of_mem_nodup {β : Type} {l : List (String × β)}
    {k : String} {b : β} (hnd : (l.map Prod.fst).Nodup) (hm : (k, b) ∈ l) :
    alookup l k = some b := by
  induction l with
  | nil => simp at hm
  | cons p rest ih =>
    obtain ⟨n, b'⟩ := p
    simp only [List.map_cons, List.nodup_cons] at hnd
    rcases List.mem_cons.mp hm with h | h
    · injection h with h1 h2
      subst h1
      subst h2
      simp [alookup]
    · have hk : n ≠ k := by
        intro hkk
        subst hkk
        exact hnd.1 (List.mem_map.mpr ⟨(n, b), h, rfl⟩)
      simp only [alookup, if_neg hk]
      exact ih hnd.2 h

theorem setCritical_map_fst (l : List (String × (GQLValue × Bool)))
    (v : String) : (setCritical l v).map Prod.fst = l.map Prod.fst := by
  induction l with
  | nil => simp [setCritical]
  | cons p rest ih =>
    obtain ⟨n, val, c⟩ := p
    by_cases h : n = v <;> simp [setCritical, h, ih]

theorem alookup_setCritical (l : List (String × (GQLValue × Bool)))
    (v n : String) :
    alookup (setCritical l v) n =
      if n = v then (alookup l n).map (fun p => (p.1, true))
      else alookup l n := by
  induction l with
  | nil => simp [setCritical, alookup]
  | cons p rest ih =>
    obtain ⟨m, val, c⟩ := p
    by_cases hm : m = v
    · subst hm
      by_cases hn : m = n
      · subst hn; simp [setCritical, alookup]
      · simp [setCritical, alookup, hn, ih]
    · by_cases hn : m = n
      · subst hn
        have hmv : ¬ m = v := hm
        simp [setCritical, hmv, alookup]
      · simp [setCritical, hm, alookup, hn, ih]

theorem mem_dinsert {κ β : Type} [DecidableEq κ] {l : List (κ × β)}
    {k : κ} {v : β} {a : κ × β} (h : a ∈ dinsert l k v) :
    a = (k, v) ∨ a ∈ l := by
  induction l with
  | nil =>
    simp only [dinsert] at h
    exact Or.inl (List.mem_singleton.mp h)
  | cons p rest ih =>
    obtain ⟨m, b⟩ := p
    by_cases hm : m = k
    · subst hm
      simp only [dinsert, if_pos rfl] at h
      rcases List.mem_cons.mp h with h | h
      · exact Or.inl h
      · exact Or.inr (List.mem_cons_of_mem _ h)
    · simp only [dinsert, if_neg hm] at h
      rcases List.mem_cons.mp h with h | h
      · exact Or.inr (h ▸ List.mem_cons_self _ _)
      · rcases ih h with h2 | h2
        · exact Or.inl h2
        · exact Or.inr (List.mem_cons_of_mem _ h2)

theorem mem_insertByName {p a : String × GQLValue}
    {l : List (String × GQLValue)} :
    a ∈ insertByName p l ↔ a = p ∨ a ∈ l := by
  induction l with
  | nil => simp [insertByName]
  | cons q rest ih =>
    by_cases h : p.1 ≤ q.1
    · rw [insertByName, if_pos h]
      simp [List.mem_cons]
    · rw [insertByName, if_neg h]
      simp only [List.mem_cons, ih]
      tauto

theorem sorted_insertByName {p : String × GQLValue}
    {l : List (String × GQLValue)}
    (h : List.Chain' (fun a b => a.1 ≤ b.1) l) :
    List.Chain' (fun a b : String × GQLValue => a.1 ≤ b.1)
      (insertByName p l) := by
  induction l with
  | nil => simp [insertByName]
  | cons q rest ih =>
    by_cases hle : p.1 ≤ q.1
    · simp only [insertByName, if_pos hle]
      exact List.Chain'.cons hle h
    · simp only [insertByName, if_neg hle]
      have hqp : q.1 ≤ p.1 := le_of_not_le hle
      have hrest := ih h.tail
      apply List.chain'_cons'.mpr
      refine ⟨?_, hrest⟩
      intro y hy
      cases hr : rest with
      | nil =>
        subst hr
        simp [insertByName] at hy
        subst hy
        exact hqp
      | cons r rs =>
        subst hr
        by_cases hpr : p.1 ≤ r.1
        · simp [insertByName, hpr] at hy
          subst hy
          exact hqp
        · simp [insertByName, hpr] at hy
          subst hy
          exact (List.chain'_cons.mp h).1

theorem sorted_sortPairs (l : List (String × GQLValue)) :
    List.Chain' (fun a b : String × GQLValue => a.1 ≤ b.1) (sortPairs l) := by
  induction l with
  | nil => simp [sortPairs]
  | cons p rest ih => exact sorted_insertByName ih

theorem mem_sortPairs {a : String × GQLValue} {l : List (String × GQLValue)} :
    a ∈ sortPairs l ↔ a ∈ l := by
  induction l with
  | nil => simp [sortPairs]
  | cons p rest ih => simp [sortPairs, mem_insertByName, ih]

/-! ### The critical-flag and read-log invariant -/

theorem evalIfCond_inv {d : Directive} {s : TState} {v : GQLValue}
    {s1 : TState} (h : evalIfCond d s = .ok (v, s1)) (hI : InvI s) :
    InvI s1 := by
  unfold evalIfCond at h
  split at h
  · exact absurd h (by simp)
  · split at h
    · rename_i lit vstr hveq
      split at h
      · exact absurd h (by simp)
      · rename_i val c hl
        injection h with h
        injection h with h1 h2
        subst h2
        constructor
        · rw [setCritical_map_fst]; exact hI.1
        · intro n
          unfold critFlag
          rw [alookup_setCritical]
          by_cases hn : n = vstr
          · subst hn
            simp [hl]
          · simp only [if_neg hn]
            have := hI.2 n
            unfold critFlag at this
            simp [this, hn]
    · injection h with h
      injection h with h1 h2
      exact h2 ▸ hI

theorem shouldInclude_inv {ds : List Directive} {s : TState} {b : Bool}
    {s' : TState} (h : shouldInclude ds s = .ok (b, s')) (hI : InvI s) :
    InvI s' := by
  induction ds generalizing s b with
  | nil =>
    simp only [shouldInclude] at h
    injection h with h
    injection h with h1 h2
    exact h2 ▸ hI
  | cons d rest ih =>
    simp only [shouldInclude] at h
    split at h
    · split at h
      · exact absurd h (by simp)
      · rename_i b1 s1 heval
        have hI1 : InvI s1 := evalIfCond_inv heval hI
        split at h
        · injection h with h
          injection h with h1 h2
          exact h2 ▸ hI1
        · split at h
          · injection h with h
            injection h with h1 h2
            exact h2 ▸ hI1
          · exact ih h hI1
      · exact absurd h (by simp)
    · exact ih h hI

theorem processArguments_state {ctx : Ctx} {pfx : List QLPathStep}
    {args : List Argument} {s : TState} {r : List (QLExpr × QLOp × QLExpr)}
    {s' : TState} (h : processArguments ctx pfx args s = .ok (r, s')) :
    s' = s := by
  induction args generalizing r s' with
  | nil =>
    simp only [processArguments] at h
    injection h with h
    injection h with h1 h2
    exact h2.symm
  | cons a rest ih =>
    simp only [processArguments] at h
    split at h
    · exact absurd h (by simp)
    · split at h
      · exact absurd h (by simp)
      · split at h
        · exact absurd h (by simp)
        · split at h
          · exact absurd h (by simp)
          · rename_i res s1 heq
            injection h with h
            injection h with h1 h2
            exact h2 ▸ ih heq

theorem processSelectWhere_state {ctx : Ctx} {sel : Selection} {s : TState}
    {r : Option QLExpr} {s' : TState}
    (h : processSelectWhere ctx sel s = .ok (r, s')) : s' = s := by
  unfold processSelectWhere at h
  split at h
  · split at h
    · injection h with h
      injection h with h1 h2
      exact h2.symm
    · split at h
      · exact absurd h (by simp)
      · rename_i trs s1 heq
        split at h
        · exact absurd h (by simp)
        · injection h with h
          injection h with h1 h2
          exact h2 ▸ processArguments_state heq
  · exact absurd h (by simp)

theorem processPathWhere_state {ctx : Ctx} {base : List String}
    {args : List Argument} {s : TState} {r : Option QLExpr} {s' : TState}
    (h : processPathWhere ctx base args s = .ok (r, s')) : s' = s := by
  unfold processPathWhere at h
  split at h
  · injection h with h
    injection h with h1 h2
    exact h2.symm
  · split at h
    · exact absurd h (by simp)
    · split at h
      · exact absurd h (by simp)
      · rename_i trs s1 heq
        split at h
        · exact absurd h (by simp)
        · injection h with h
          injection h with h1 h2
          exact h2 ▸ processArguments_state heq

theorem alookup_append {β : Type} (l1 l2 : List (String × β)) (k : String) :
    alookup (l1 ++ l2) k =
      (match alookup l1 k with
       | some b => some b
       | none => alookup l2 k) := by
  induction l1 with
  | nil => simp [alookup]
  | cons p rest ih =>
    obtain ⟨n, b⟩ := p
    by_cases h : n = k
    · subst h; simp [alookup]
    · simp [alookup, h, ih]

theorem critFlag_some {vars : List (String × (GQLValue × Bool))}
    {n : String} {v : GQLValue} {c : Bool}
    (h : alookup vars n = some (v, c)) : critFlag vars n = c := by
  unfold critFlag
  rw [h]

theorem critFlag_none {vars : List (String × (GQLValue × Bool))} {n : String}
    (h : alookup vars n = none) : critFlag vars n = false := by
  unfold critFlag
  rw [h]

theorem populateStep_inv {decl : VarDecl} {s s1 : TState}
    (h : populateStep decl s = .ok ((), s1)) (hI : InvI s) : InvI s1 := by
  unfold populateStep at h
  split at h
  · exact absurd h (by simp)
  · rename_i hne
    cases hl : alookup s.vars decl.name with
    | some p =>
      simp only [hl] at h
      repeat' split at h
      all_goals
        first
        | exact Except.noConfusion h
        | (injection h with h
           injection h with h1 h2
           cases h2
           exact hI)
    | none =>
      simp only [hl] at h
      have hkey : decl.name ∉ s.vars.map Prod.fst :=
        (alookup_none_iff s.vars decl.name).mp hl
      have hInv1 : InvI { s with
          vars := s.vars ++ [(decl.name, (seedVal decl, false))] } := by
        constructor
        · simp only [List.map_append, List.map_cons, List.map_nil]
          rw [List.nodup_append]
          exact ⟨hI.1, List.nodup_singleton _,
            by simpa [List.disjoint_singleton] using hkey⟩
        · intro n
          by_cases hnd : decl.name = n
          · subst hnd
            have hfull : alookup
                (s.vars ++ [(decl.name, (seedVal decl, false))]) decl.name =
                some (seedVal decl, false) := by
              rw [alookup_append, hl]
              simp [alookup]
            rw [critFlag_some hfull]
            have h0 := hI.2 decl.name
            rw [critFlag_none hl] at h0
            simpa using h0
          · have hfull : alookup
                (s.vars ++ [(decl.name, (seedVal decl, false))]) n =
                alookup s.vars n := by
              rw [alookup_append]
              cases hx : alookup s.vars n with
              | some p => rfl
              | none => simp [alookup, hnd]
            unfold critFlag
            rw [hfull]
            exact hI.2 n
      repeat' split at h
      all_goals
        first
        | exact Except.noConfusion h
        | (injection h with h
           injection h with h1 h2
           cases h2
           exact hInv1)

theorem populateLoop_inv {decls : List VarDecl} {s s1 : TState}
    (h : populateLoop decls s = .ok ((), s1)) (hI : InvI s) : InvI s1 := by
  induction decls generalizing s with
  | nil =>
    simp only [populateLoop] at h
    injection h with h
    injection h with h1 h2
    exact h2 ▸ hI
  | cons d ds ih =>
    simp only [populateLoop] at h
    split at h
    · exact absurd h (by simp)
    · rename_i u s2 heq
      exact ih h (populateStep_inv heq hI)

theorem populateVariableDefaults_inv {decls : List VarDecl} {s s1 : TState}
    (h : populateVariableDefaults decls s = .ok ((), s1)) (hI : InvI s) :
    InvI s1 := by
  unfold populateVariableDefaults at h
  split at h
  · injection h with h
    injection h with h1 h2
    exact h2 ▸ hI
  · exact populateLoop_inv h hI

theorem pathspecFns_inv (ctx : Ctx) : ∀ fuel : Nat,
    (∀ base sels s r s',
      processPathspec ctx fuel base sels s = .ok (r, s') → InvI s → InvI s') ∧
    (∀ base n args ss s r s',
      processField ctx fuel base n args ss s = .ok (r, s') → InvI s →
        InvI s') ∧
    (∀ base onT ds fsels s r s',
      processInlineFragment ctx fuel base onT ds fsels s = .ok (r, s') →
        InvI s → InvI s') ∧
    (∀ base n s r s',
      processSpread ctx fuel base n s = .ok (r, s') → InvI s → InvI s') := by
  intro fuel
  induction fuel with
  | zero =>
    refine ⟨?_, ?_, ?_, ?_⟩
    · intro base sels s r s' h
      exact absurd h (by simp [processPathspec])
    · intro base n args ss s r s' h
      exact absurd h (by simp [processField])
    · intro base onT ds fsels s r s' h
      exact absurd h (by simp [processInlineFragment])
    · intro base n s r s' h
      exact absurd h (by simp [processSpread])
  | succ fuel ih =>
    obtain ⟨ihP, ihF, ihI, ihS⟩ := ih
    have hField : ∀ base n args ss s r s',
        processField ctx (fuel + 1) base n args ss s = .ok (r, s') →
          InvI s → InvI s' := by
      intro base n args ss s r s' h hI
      simp only [processField] at h
      split at h
      · exact Except.noConfusion h
      · rename_i wh s1 hw
        have hI1 : InvI s1 := (processPathWhere_state hw) ▸ hI
        split at h
        · injection h with h
          injection h with h1 h2
          exact h2 ▸ hI1
        · split at h
          · exact Except.noConfusion h
          · rename_i specs s2 hp
            injection h with h
            injection h with h1 h2
            exact h2 ▸ ihP _ _ _ _ _ hp hI1
    have hInline : ∀ base onT ds fsels s r s',
        processInlineFragment ctx (fuel + 1) base onT ds fsels s =
            .ok (r, s') → InvI s → InvI s' := by
      intro base onT ds fsels s r s' h hI
      simp only [processInlineFragment] at h
      split at h
      · exact Except.noConfusion h
      · exact ihP _ _ _ _ _ h hI
    have hSpread : ∀ base n s r s',
        processSpread ctx (fuel + 1) base n s = .ok (r, s') → InvI s →
          InvI s' := by
      intro base n s r s' h hI
      simp only [processSpread] at h
      split at h
      · exact Except.noConfusion h
      · split at h
        · exact Except.noConfusion h
        · exact ihP _ _ _ _ _ h hI
    refine ⟨?_, hField, hInline, hSpread⟩
    intro base sels s r s' h hI
    cases sels with
    | nil =>
      simp only [processPathspec] at h
      injection h with h
      injection h with h1 h2
      exact h2 ▸ hI
    | cons sel rest =>
      simp only [processPathspec] at h
      split at h
      · exact Except.noConfusion h
      · rename_i s1 hsi
        exact ihP _ _ _ _ _ h (shouldInclude_inv hsi hI)
      · rename_i s1 hsi
        have hI1 : InvI s1 := shouldInclude_inv hsi hI
        split at h
        · rename_i n args ds ss
          split at h
          · exact Except.noConfusion h
          · rename_i spec s2 hf
            split at h
            · exact Except.noConfusion h
            · rename_i specs s3 hp
              injection h with h
              injection h with h1 h2
              exact h2 ▸ ihP _ _ _ _ _ hp (ihF _ _ _ _ _ _ _ hf hI1)
        · rename_i onT ds fsels
          split at h
          · exact Except.noConfusion h
          · rename_i fspecs s2 hf
            split at h
            · exact Except.noConfusion h
            · rename_i specs s3 hp
              injection h with h
              injection h with h1 h2
              exact h2 ▸ ihP _ _ _ _ _ hp (ihI _ _ _ _ _ _ _ hf hI1)
        · rename_i n ds
          split at h
          · exact Except.noConfusion h
          · rename_i fspecs s2 hf
            split at h
            · exact Except.noConfusion h
            · rename_i specs s3 hp
              injection h with h
              injection h with h1 h2
              exact h2 ▸ ihP _ _ _ _ _ hp (ihS _ _ _ _ _ hf hI1)

theorem processPathspec_inv {ctx : Ctx} {fuel : Nat} {base : List String}
    {sels : List Selection} {s : TState} {r : List SelectPathSpec}
    {s' : TState} (h : processPathspec ctx fuel base sels s = .ok (r, s'))
    (hI : InvI s) : InvI s' :=
  (pathspecFns_inv ctx fuel).1 _ _ _ _ _ h hI

theorem processSelset_inv {ctx : Ctx} {fuel : Nat} {sel : Selection}
    {s : TState} {r : SelectExpr} {s' : TState}
    (h : processSelset ctx fuel sel s = .ok (r, s')) (hI : InvI s) :
    InvI s' := by
  unfold processSelset at h
  split at h
  · split at h
    · exact Except.noConfusion h
    · exact Except.noConfusion h
    · split at h
      · exact Except.noConfusion h
      · split at h
        · exact Except.noConfusion h
        · rename_i ps s1 hp
          injection h with h
          injection h with h1 h2
          exact h2 ▸ processPathspec_inv hp hI
  · exact Except.noConfusion h

theorem processDefLoop_inv {ctx : Ctx} {fuel : Nat} {module : Option String}
    {sels : List Selection} {acc : Option SelectQuery} {s : TState}
    {q : Option SelectQuery} {s' : TState}
    (h : processDefLoop ctx fuel module acc sels s = .ok (q, s'))
    (hI : InvI s) : InvI s' := by
  induction sels generalizing acc s q s' with
  | nil =>
    simp only [processDefLoop] at h
    injection h with h
    injection h with h1 h2
    exact h2 ▸ hI
  | cons sel rest ih =>
    simp only [processDefLoop] at h
    split at h
    · exact Except.noConfusion h
    · rename_i target s1 hsel
      split at h
      · exact Except.noConfusion h
      · rename_i wh s2 hwh
        have hI2 : InvI s2 :=
          (processSelectWhere_state hwh) ▸ processSelset_inv hsel hI
        split at h
        · exact ih h hI2
        · exact ih h hI2

theorem processDefinition_inv {ctx : Ctx} {fuel : Nat}
    {defn : OperationDefinition} {s : TState} {q : Option SelectQuery}
    {s' : TState} (h : processDefinition ctx fuel defn s = .ok (q, s'))
    (hI : InvI s) : InvI s' := by
  unfold processDefinition at h
  split at h
  · split at h
    · exact Except.noConfusion h
    · rename_i u s1 hpop
      split at h
      · exact Except.noConfusion h
      · exact processDefLoop_inv h (populateVariableDefaults_inv hpop hI)
  · exact Except.noConfusion h

theorem alookup_map_pair (l : List (String × GQLValue)) (n : String) :
    alookup (l.map (fun p => (p.1, (p.2, false)))) n =
      (alookup l n).map (fun v => (v, false)) := by
  induction l with
  | nil => simp [alookup]
  | cons p rest ih =>
    obtain ⟨k, v⟩ := p
    by_cases h : k = n
    · subst h; simp [alookup]
    · simp [alookup, h, ih]

/-- The fresh per-operation state built at the head of the definition
loop satisfies the invariant: all flags start false and the log starts
empty. -/
theorem initState_inv {varAssign : List (String × GQLValue)}
    (hnd : (varAssign.map Prod.fst).Nodup) :
    InvI { vars := varAssign.map (fun p => (p.1, (p.2, false))),
           readLog := [] } := by
  constructor
  · simpa [List.map_map, Function.comp] using hnd
  · intro n
    simp only [List.not_mem_nil, iff_false]
    cases hx : alookup varAssign n with
    | some v =>
      have : alookup (varAssign.map (fun p => (p.1, (p.2, false)))) n =
          some (v, false) := by rw [alookup_map_pair, hx]; rfl
      rw [critFlag_some this]
      simp
    | none =>
      have : alookup (varAssign.map (fun p => (p.1, (p.2, false)))) n =
          none := by rw [alookup_map_pair, hx]; rfl
      rw [critFlag_none this]
      simp

/-- Characterization of the critical-variable extraction: under unique
keys, a name appears in the extracted list exactly when its flag is
set. -/
theorem mem_critVarsOf {vars : List (String × (GQLValue × Bool))}
    (hnd : (vars.map Prod.fst).Nodup) (n : String) :
    n ∈ (critVarsOf vars).map Prod.fst ↔ critFlag vars n = true := by
  constructor
  · intro h
    obtain ⟨p, hp, hpe⟩ := List.mem_map.mp h
    obtain ⟨pn, pv⟩ := p
    obtain rfl : pn = n := hpe
    have hp2 := mem_sortPairs.mp hp
    obtain ⟨e, he, hee⟩ := List.mem_map.mp hp2
    have hef := (List.mem_filter.mp he).2
    have hmem := (List.mem_filter.mp he).1
    obtain ⟨en, ev, ec⟩ := e
    simp only at hef
    injection hee with he1 he2
    subst he1
    subst he2
    have : ec = true := by simpa using hef
    subst this
    rw [critFlag_some (alookup_eq_some_of_mem_nodup hnd hmem)]
  · intro h
    cases hx : alookup vars n with
    | none => rw [critFlag_none hx] at h; exact absurd h (by simp)
    | some p =>
      obtain ⟨v, c⟩ := p
      have hc := critFlag_some hx
      rw [h] at hc
      subst hc
      have hmem : (n, (v, true)) ∈ vars := mem_of_alookup_eq_some hx
      apply List.mem_map.mpr
      refine ⟨(n, v), ?_, rfl⟩
      apply mem_sortPairs.mpr
      apply List.mem_map.mpr
      refine ⟨(n, (v, true)), ?_, rfl⟩
      exact List.mem_filter.mpr ⟨hmem, by simp⟩

theorem translateLoop_entries {ctx : Ctx} {fuel : Nat}
    {varAssign : List (String × GQLValue)} {defs : List Definition}
    {acc res : List (Option String × OpResult)} {s s' : TState}
    (h : translateLoop ctx fuel varAssign defs acc s = .ok (res, s'))
    (hnd : (varAssign.map Prod.fst).Nodup)
    (hacc : ∀ e ∈ acc, GoodEntry e) : ∀ e ∈ res, GoodEntry e := by
  induction defs generalizing acc s with
  | nil =>
    simp only [translateLoop] at h
    injection h with h
    injection h with h1 h2
    exact h1 ▸ hacc
  | cons d rest ih =>
    cases d with
    | frag f =>
      simp only [translateLoop] at h
      exact ih h hacc
    | op defn =>
      simp only [translateLoop] at h
      split at h
      · exact Except.noConfusion h
      · rename_i q s1 hdef
        have hI1 : InvI s1 := processDefinition_inv hdef (initState_inv hnd)
        refine ih h ?_
        intro e he
        rcases mem_dinsert he with he | he
        · subst he
          constructor
          · exact sorted_sortPairs _
          · intro n
            have := mem_critVarsOf hI1.1 n
            unfold critVarsOf at this ⊢
            rw [this]
            exact hI1.2 n
        · exact hacc e he

/-- Claim C1: for every document, variable assignment (with the unique
keys of a Python dict), and schema for which translation succeeds, each
operation’s critical-variable list contains exactly the variables whose
current value was read while evaluating an `include`/`skip` directive
condition during that operation’s translation (the ghost `readLog`),
regardless of the branch selected — in particular a variable referenced
only as a filter-argument value never appears — and the list is sorted
by variable name. -/
theorem critical_vars_exactly_directive_reads
    {fuel : Nat} {t : Translator} {doc : List Definition}
    {varAssign : List (String × GQLValue)}
    {res : List (Option String × OpResult)} {t' : Translator}
    {k : Option String} {q : Option SelectQuery}
    {cv : List (String × GQLValue)} {lg : List String}
    (hnd : (varAssign.map Prod.fst).Nodup)
    (h : translateT fuel t doc varAssign = .ok (res, t'))
    (hm : (k, (q, cv, lg)) ∈ res) :
    List.Chain' (fun a b : String × GQLValue => a.1 ≤ b.1) cv ∧
      ∀ n, n ∈ cv.map Prod.fst ↔ n ∈ lg := by
  unfold translateT translateCore at h
  split at h
  · exact Except.noConfusion h
  · rename_i res0 s0 hloop
    injection h with h
    injection h with h1 h2
    subst h1
    exact translateLoop_entries hloop hnd
      (fun e he => absurd he (List.not_mem_nil e)) _ hm

theorem critical_vars_exactly_directive_reads_witness :
    List.Chain' (fun a b : String × GQLValue => a.1 ≤ b.1)
        [("v", GQLValue.vbool true)] ∧
      ∀ n, n ∈ ([("v", GQLValue.vbool true)] :
          List (String × GQLValue)).map Prod.fst ↔ n ∈ ["v"] :=
  critical_vars_exactly_directive_reads (by decide)
    (rfl : translateT 3 c1T c1Doc c1Vars = .ok (c1Res, c1TAfter))
    (List.mem_singleton.mpr rfl)

theorem shouldInclude_append (xs ys : List Directive) (s : TState) :
    shouldInclude (xs ++ ys) s =
      (match shouldInclude xs s with
       | .error e => .error e
       | .ok (true, s1) => shouldInclude ys s1
       | .ok (false, s1) => .ok (false, s1)) := by
  induction xs generalizing s with
  | nil => simp [shouldInclude]
  | cons d xs ih =>
    simp only [List.cons_append, shouldInclude]
    by_cases hc : d.name = "include" ∨ d.name = "skip"
    · simp only [if_pos hc]
      cases he : evalIfCond d s with
      | error e => rfl
      | ok p =>
        obtain ⟨v, s1⟩ := p
        cases v with
        | vbool b =>
          by_cases h1 : d.name = "include" ∧ b = false
          · simp [h1]
          · by_cases h2 : d.name = "skip" ∧ b = true
            · simp [h1, h2]
            · simp [h1, h2, ih]
        | vnull => rfl
        | vint n => rfl
        | vfloat q => rfl
        | vstr st => rfl
        | vlist xs2 => rfl
    · simp only [if_neg hc]
      exact ih s

/-- Claim C2: for a selection processed by the pathspec builder whose
directive list splits as `pre ++ d :: post` with the directives of
`pre` all passing, a single `include` directive whose condition
evaluates to false — or a single `skip` directive whose condition
evaluates to true — excludes the selection before its kind is
dispatched on: the whole directive evaluation returns exclusion, and
expanding the selection list equals expanding the remaining selections
alone from the post-evaluation state, so the excluded selection
contributes nothing to the shape and its subtree is never descended
into, type-checked, or allowed side effects. -/
theorem directive_exclusion_before_dispatch
    {ctx : Ctx} {fuel : Nat} {base : List String} {sel : Selection}
    {rest : List Selection} {s s1 s2 : TState} {pre post : List Directive}
    {d : Directive}
    (hsplit : sel.directives = pre ++ d :: post)
    (hpre : shouldInclude pre s = .ok (true, s1))
    (hd : (d.name = "include" ∧ evalIfCond d s1 = .ok (.vbool false, s2)) ∨
          (d.name = "skip" ∧ evalIfCond d s1 = .ok (.vbool true, s2))) :
    shouldInclude sel.directives s = .ok (false, s2) ∧
      processPathspec ctx (fuel + 1) base (sel :: rest) s =
        processPathspec ctx fuel base rest s2 := by
  have hstep : shouldInclude (d :: post) s1 = .ok (false, s2) := by
    simp only [shouldInclude]
    rcases hd with ⟨hn, he⟩ | ⟨hn, he⟩
    · rw [if_pos (Or.inl hn), he]
      simp [hn]
    · rw [if_pos (Or.inr hn), he]
      have : ¬ (d.name = "include" ∧ false = false) := by
        intro hcon
        rw [hn] at hcon
        exact absurd hcon.1 (by decide)
      simp [hn]
  have hfull : shouldInclude sel.directives s = .ok (false, s2) := by
    rw [hsplit, shouldInclude_append, hpre]
    exact hstep
  refine ⟨hfull, ?_⟩
  simp only [processPathspec]
  rw [hfull]

theorem directive_exclusion_before_dispatch_witness :
    shouldInclude c2Sel.directives c2S = .ok (false, c2S) ∧
      processPathspec c2Ctx 1 ["User"] [c2Sel] c2S =
        processPathspec c2Ctx 0 ["User"] [] c2S :=
  @directive_exclusion_before_dispatch c2Ctx 0 ["User"] c2Sel [] c2S c2S c2S
    [] [] ⟨"skip", [⟨"if", .scalar (.vbool true)⟩]⟩
    rfl rfl (Or.inr ⟨rfl, rfl⟩)

theorem populateLoop_append (xs ys : List VarDecl) (s : TState) :
    populateLoop (xs ++ ys) s =
      (match populateLoop xs s with
       | .error e => .error e
       | .ok (_, s1) => populateLoop ys s1) := by
  induction xs generalizing s with
  | nil => simp [populateLoop]
  | cons d xs ih =>
    simp only [List.cons_append, populateLoop]
    cases hs : populateStep d s with
    | error e => rfl
    | ok p =>
      obtain ⟨u, s1⟩ := p
      exact ih s1

/-- Claim C3: for a query operation whose declaration list splits as
`pre ++ decl :: post` with the declarations of `pre` processing
successfully, translation of the operation fails with the
variable-declaration validation error — before any target AST is
produced — whenever `decl` is non-nullable and supplies a default
literal, and likewise whenever `decl` is non-nullable, supplies no
default, and its value after default seeding is null. -/
theorem nonnullable_variable_declaration_errors
    {ctx : Ctx} {fuel : Nat} {defn : OperationDefinition} {s s1 : TState}
    {pre post : List VarDecl} {decl : VarDecl}
    (htype : defn.type = none ∨ defn.type = some "query")
    (hdecls : defn.varDecls = pre ++ decl :: post)
    (hpre : populateLoop pre s = .ok ((), s1)) :
    (decl.value ≠ none → decl.type.nullable = false →
      processDefinition ctx fuel defn s = .error (.validation
        ("variable " ++ pyStr decl.name ++
         " cannot be non-nullable and have a default"))) ∧
    (decl.value = none → decl.type.nullable = false →
      (match alookup s1.vars decl.name with
       | some (v, _) => v = GQLValue.vnull
       | none => True) →
      processDefinition ctx fuel defn s = .error (.validation
        ("non-nullable variable " ++ pyStr decl.name ++
         " is missing a value"))) := by
  have hne : pre ++ decl :: post ≠ [] := by cases pre <;> simp
  have hPV : populateVariableDefaults (pre ++ decl :: post) s =
      populateLoop (pre ++ decl :: post) s := by
    unfold populateVariableDefaults
    cases hp : pre ++ decl :: post with
    | nil => exact absurd hp hne
    | cons a as => rfl
  have hPD : ∀ e, populateStep decl s1 = .error e →
      processDefinition ctx fuel defn s = .error e := by
    intro e he
    unfold processDefinition
    rw [if_pos htype, hdecls, hPV, populateLoop_append, hpre]
    simp only [populateLoop, he]
  constructor
  · intro hv hnul
    obtain ⟨x, hx⟩ := Option.ne_none_iff_exists'.mp hv
    apply hPD
    unfold populateStep
    rw [hx, hnul]
  · intro hv hnul hseed
    apply hPD
    unfold populateStep
    rw [hv]
    have hseednull : seedVal decl = .vnull := by
      unfold seedVal
      rw [hv]
    cases hl : alookup s1.vars decl.name with
    | none =>
      simp only [hl, hseednull]
      have hfull : alookup
          (s1.vars ++ [(decl.name, (GQLValue.vnull, false))]) decl.name =
          some (.vnull, false) := by
        rw [alookup_append, hl]
        simp [alookup]
      rw [hnul] at *
      simp [hfull, hnul]
    | some p =>
      obtain ⟨v, c⟩ := p
      rw [hl] at hseed
      simp only at hseed
      subst hseed
      simp [hl, hnul]

theorem nonnullable_variable_declaration_errors_witness :
    ((some (GQLLiteral.scalar (GQLValue.vint 1)) : Option GQLLiteral) ≠
        none → false = false →
      processDefinition c2Ctx 1 c3Defn c2S = .error (.validation
        ("variable " ++ pyStr "x" ++
         " cannot be non-nullable and have a default"))) ∧
    ((some (GQLLiteral.scalar (GQLValue.vint 1)) : Option GQLLiteral) =
        none → false = false →
      (match alookup c2S.vars "x" with
       | some (v, _) => v = GQLValue.vnull
       | none => True) →
      processDefinition c2Ctx 1 c3Defn c2S = .error (.validation
        ("non-nullable variable " ++ pyStr "x" ++
         " is missing a value"))) :=
  @nonnullable_variable_declaration_errors c2Ctx 1 c3Defn c2S c2S [] []
    ⟨"x", ⟨"Int", false, false⟩, some (.scalar (.vint 1))⟩
    (Or.inl rfl) rfl rfl

/-- Claim C4: single-value validation accepts a scalar value exactly
according to the fixed compatibility table (integers against integer,
floating-point, decimal and ID types; text against text and ID; reals
against floating-point and decimal; booleans against boolean only), and
every rejected value raises an error whose message carries the
argument/variable name, the offending value, and the expected schema
type. -/
theorem value_validation_table {nm : String} {v : GQLValue} {t : ImplType}
    (hs : isScalarKind v = true) :
    (validateValue nm v t false = .ok () ↔ t ∈ specAccepted v) ∧
      (t ∉ specAccepted v →
        validateValue nm v t false = .error (.validation
          ("value " ++ pyRepr v ++ " is not of type " ++ implTypeStr t ++
           " accepted by " ++ pyStr nm))) := by
  cases v with
  | vnull => exact absurd hs (by simp [isScalarKind])
  | vlist xs => exact absurd hs (by simp [isScalarKind])
  | vbool b =>
    cases t <;>
      simp [validateValue, validateValueLoop, pyCoercionMap, specAccepted]
  | vint n =>
    cases t <;>
      simp [validateValue, validateValueLoop, pyCoercionMap, specAccepted]
  | vfloat q =>
    cases t <;>
      simp [validateValue, validateValueLoop, pyCoercionMap, specAccepted]
  | vstr st =>
    cases t <;>
      simp [validateValue, validateValueLoop, pyCoercionMap, specAccepted]

theorem value_validation_table_witness :
    (validateValue "name" (GQLValue.vbool true) ImplType.Str false =
        .ok () ↔ ImplType.Str ∈ specAccepted (GQLValue.vbool true)) ∧
      (ImplType.Str ∉ specAccepted (GQLValue.vbool true) →
        validateValue "name" (GQLValue.vbool true) ImplType.Str false =
          .error (.validation
            ("value " ++ pyRepr (GQLValue.vbool true) ++ " is not of type " ++
             implTypeStr ImplType.Str ++ " accepted by " ++ pyStr "name"))) :=
  value_validation_table rfl

/-- Counterexample to claim C5 as stated: a named fragment on `Frag`
spread at the unrelated root `User` does fail, but the raised message
is `fragment (f) is incompatible with (User)` — it names the fragment
and the base type only; the fragment’s declared type `Frag` appears
nowhere in the message, so the error does not name both types. -/
theorem fragment_error_does_not_name_both_types :
    translateT 3 c5T c5Doc [] = .error (.validation
      ("fragment \x27f\x27 is incompatible with \x27User\x27")) ∧
      strContains "fragment \x27f\x27 is incompatible with \x27User\x27"
        "Frag" = false :=
  ⟨rfl, rfl⟩

/-- Claim C5 (amended): for an inline fragment or named fragment spread
declaring a type, if the declared type and the spread position’s
resolved base type are unrelated by subtyping in either direction,
translation fails with a type-incompatibility validation error — whose
message names the fragment and the base type’s short name when the
fragment has a (truthy) name, and is the fixed
`inline fragment is incompatible with None` text otherwise (the
intended base-type format argument is ignored) — and if they are
related in either direction the check passes and the fragment’s
selections are spliced directly into the parent’s shape at the same
nesting depth as sibling fields, with no extra wrapping level. -/
theorem fragment_type_check_and_splice :
    (∀ (ctx : Ctx) (base : List String) (frag : FragLike) (onName : String)
       (ft bt : String),
      frag.onType = some onName →
      resolveFragType ctx frag.directives onName = .ok ft →
      resolveBasePath ctx base = .ok bt →
      ((schemaIssub ctx.schema bt ft = false ∧
          schemaIssub ctx.schema ft bt = false →
        validateFragmentType ctx base frag =
          .error (.validation (incompatMsg ctx.schema frag bt))) ∧
       (schemaIssub ctx.schema bt ft = true ∨
          schemaIssub ctx.schema ft bt = true →
        validateFragmentType ctx base frag = .ok ()))) ∧
    (∀ (ctx : Ctx) (fuel : Nat) (base : List String) (onT : Option String)
       (ds : List Directive) (fsels rest : List Selection) (s s1 : TState),
      shouldInclude ds s = .ok (true, s1) →
      validateFragmentType ctx base
        { name := none, onType := onT, directives := ds } = .ok () →
      processPathspec ctx (fuel + 2) base
          (Selection.inlineFrag onT ds fsels :: rest) s =
        (match processPathspec ctx fuel base fsels s1 with
         | .error e => .error e
         | .ok (fspecs, s2) =>
           match processPathspec ctx (fuel + 1) base rest s2 with
           | .error e => .error e
           | .ok (specs, s3) => .ok (fspecs ++ specs, s3))) ∧
    (∀ (ctx : Ctx) (fuel : Nat) (base : List String) (n : String)
       (ds : List Directive) (frag : FragmentDef) (rest : List Selection)
       (s s1 : TState),
      shouldInclude ds s = .ok (true, s1) →
      alookup ctx.fragments n = some frag →
      validateFragmentType ctx base
        { name := some frag.name, onType := frag.onType,
          directives := frag.directives } = .ok () →
      processPathspec ctx (fuel + 2) base
          (Selection.spread n ds :: rest) s =
        (match processPathspec ctx fuel base frag.selections s1 with
         | .error e => .error e
         | .ok (fspecs, s2) =>
           match processPathspec ctx (fuel + 1) base rest s2 with
           | .error e => .error e
           | .ok (specs, s3) => .ok (fspecs ++ specs, s3))) := by
  refine ⟨?_, ?_, ?_⟩
  · intro ctx base frag onName ft bt hon hft hbt
    constructor
    · intro ⟨h1, h2⟩
      unfold validateFragmentType
      rw [hon]
      dsimp only
      rw [hft, hbt]
      simp [h1, h2]
    · intro h
      unfold validateFragmentType
      rw [hon]
      dsimp only
      rw [hft, hbt]
      rcases h with h | h <;> simp [h]
  · intro ctx fuel base onT ds fsels rest s s1 hsi hval
    simp only [processPathspec, Selection.directives]
    rw [hsi]
    simp only [processInlineFragment]
    rw [hval]
  · intro ctx fuel base n ds frag rest s s1 hsi hfr hval
    simp only [processPathspec, Selection.directives]
    rw [hsi]
    simp only [processSpread]
    rw [hfr]
    dsimp only
    rw [hval]

theorem fragment_type_check_and_splice_witness :
    ((schemaIssub c5RelSchema "User" "FragT" = false ∧
        schemaIssub c5RelSchema "FragT" "User" = false →
      validateFragmentType c5RelCtx ["User"]
          { name := none, onType := some "Frag", directives := [] } =
        .error (.validation (incompatMsg c5RelSchema
          { name := none, onType := some "Frag", directives := [] }
          "User"))) ∧
     (schemaIssub c5RelSchema "User" "FragT" = true ∨
        schemaIssub c5RelSchema "FragT" "User" = true →
      validateFragmentType c5RelCtx ["User"]
          { name := none, onType := some "Frag", directives := [] } =
        .ok ())) ∧
      processPathspec c5RelCtx 2 ["User"]
          (Selection.inlineFrag (some "Frag") [] [] :: []) c2S =
        (match processPathspec c5RelCtx 0 ["User"] [] c2S with
         | .error e => .error e
         | .ok (fspecs, s2) =>
           match processPathspec c5RelCtx 1 ["User"] [] s2 with
           | .error e => .error e
           | .ok (specs, s3) => .ok (fspecs ++ specs, s3)) :=
  ⟨fragment_type_check_and_splice.1 c5RelCtx ["User"]
      { name := none, onType := some "Frag", directives := [] }
      "Frag" "FragT" "User" rfl rfl rfl,
   fragment_type_check_and_splice.2.1 c5RelCtx 0 ["User"] (some "Frag")
      [] [] [] c2S c2S rfl rfl⟩

/-- Claim C6: each argument resolves its operator from the trailing
four-character suffix (exact-equals when absent), the remaining portion
split on double underscores is appended as link steps to the path
prefix, the decoded value is validated as a list exactly when the
operator is a membership operator, and the per-selection filter is the
left-associative AND-fold of the comparisons in argument order. -/
theorem argument_operators_paths_and_joins :
    (∀ (ctx : Ctx) (pfx : List QLPathStep) (args : List Argument)
       (s : TState) (res : List (QLExpr × QLOp × QLExpr)) (s' : TState),
      processArguments ctx pfx args s = .ok (res, s') →
      s' = s ∧ List.Forall₂
        (fun (arg : Argument) (tr : QLExpr × QLOp × QLExpr) =>
          tr.1 = QLExpr.path
            (pfx ++ (pySplit (parseArgName arg.name).2 "__").map
              QLPathStep.linkExpr) none ∧
          tr.2.1 = (parseArgName arg.name).1 ∧
          processLiteral arg.value = .ok tr.2.2 ∧
          ∃ chk, decodeCheckValue s.vars arg.value tr.2.2 = .ok chk ∧
            validateArg ctx
              (pfx ++ (pySplit (parseArgName arg.name).2 "__").map
                QLPathStep.linkExpr)
              chk (isMembership (parseArgName arg.name).1) = .ok ())
        args res) ∧
    (∀ (op : QLOp) (e : QLExpr) (es : List QLExpr),
      joinExpressions op (e :: es) =
        .ok (es.foldl (fun a b => QLExpr.binop a op b) e)) ∧
    (∀ (ctx : Ctx) (b0 : String) (brest : List String)
       (args : List Argument) (s : TState) (r : Option QLExpr) (s' : TState),
      args ≠ [] →
      processPathWhere ctx (b0 :: brest) args s = .ok (r, s') →
      ∃ trs e,
        processArguments ctx
          (QLPathStep.pathStep b0 :: brest.map QLPathStep.linkExpr) args s =
            .ok (trs, s') ∧
        joinExpressions .AND (binopsOf trs) = .ok e ∧ r = some e) := by
  refine ⟨?_, ?_, ?_⟩
  · intro ctx pfx args s res s' h
    refine ⟨processArguments_state h, ?_⟩
    induction args generalizing res s' with
    | nil =>
      simp only [processArguments] at h
      injection h with h
      injection h with h1 h2
      subst h1
      exact List.Forall₂.nil
    | cons arg rest ih =>
      simp only [processArguments] at h
      split at h
      · exact Except.noConfusion h
      · rename_i value hlit
        split at h
        · exact Except.noConfusion h
        · rename_i chk hchk
          split at h
          · exact Except.noConfusion h
          · rename_i u hvalid
            split at h
            · exact Except.noConfusion h
            · rename_i res0 s1 hrest
              injection h with h
              injection h with h1 h2
              subst h1
              refine List.Forall₂.cons ?_ (ih _ _ hrest)
              refine ⟨rfl, rfl, hlit, chk, hchk, ?_⟩
              cases u
              exact hvalid
  · intro op e es
    cases es with
    | nil => rfl
    | cons e2 rest => rfl
  · intro ctx b0 brest args s r s' hne h
    unfold processPathWhere at h
    split at h
    · exact absurd rfl hne
    · split at h
      · exact Except.noConfusion h
      · rename_i b0x brestx hbase
        injection hbase with hb1 hb2
        subst hb1
        subst hb2
        split at h
        · exact Except.noConfusion h
        · rename_i trs s1 hargs
          split at h
          · exact Except.noConfusion h
          · rename_i e hjoin
            injection h with h
            injection h with h1 h2
            subst h1
            subst h2
            exact ⟨trs, e, hargs, hjoin, rfl⟩

theorem argument_operators_paths_and_joins_witness :
    (c2S = c2S ∧ List.Forall₂
      (fun (arg : Argument) (tr : QLExpr × QLOp × QLExpr) =>
        tr.1 = QLExpr.path
          ([QLPathStep.pathStep "User"] ++
            (pySplit (parseArgName arg.name).2 "__").map
              QLPathStep.linkExpr) none ∧
        tr.2.1 = (parseArgName arg.name).1 ∧
        processLiteral arg.value = .ok tr.2.2 ∧
        ∃ chk, decodeCheckValue c2S.vars arg.value tr.2.2 = .ok chk ∧
          validateArg c6Ctx
            ([QLPathStep.pathStep "User"] ++
              (pySplit (parseArgName arg.name).2 "__").map
                QLPathStep.linkExpr)
            chk (isMembership (parseArgName arg.name).1) = .ok ())
      [⟨"name__eq", .scalar (.vstr "Alice")⟩] [c6Triple]) ∧
    joinExpressions .AND
        [QLExpr.constant (.vint 1) none, QLExpr.constant (.vint 2) none,
         QLExpr.constant (.vint 3) none] =
      .ok (QLExpr.binop
        (QLExpr.binop (QLExpr.constant (.vint 1) none) .AND
          (QLExpr.constant (.vint 2) none)) .AND
        (QLExpr.constant (.vint 3) none)) :=
  ⟨argument_operators_paths_and_joins.1 c6Ctx [QLPathStep.pathStep "User"]
      [⟨"name__eq", .scalar (.vstr "Alice")⟩] c2S [c6Triple] c2S rfl,
   argument_operators_paths_and_joins.2.1 .AND
      (QLExpr.constant (.vint 1) none)
      [QLExpr.constant (.vint 2) none, QLExpr.constant (.vint 3) none]⟩

theorem processDefLoop_of_buildSel {ctx : Ctx} {fuel : Nat}
    {module : Option String} :
    ∀ (sels : List Selection) (acc : Option SelectQuery) (s : TState)
      (qs : List SelectQuery) (s2 : TState),
      buildSelQueries ctx fuel module sels s = .ok (qs, s2) →
      processDefLoop ctx fuel module acc sels s = .ok (foldUnion acc qs, s2) := by
  intro sels
  induction sels with
  | nil =>
    intro acc s qs s2 h
    simp only [buildSelQueries] at h
    injection h with h
    injection h with h1 h2
    subst h1
    subst h2
    rfl
  | cons sel rest ih =>
    intro acc s qs s2 h
    simp only [buildSelQueries] at h
    split at h
    · exact Except.noConfusion h
    · rename_i target s1 hsel
      split at h
      · exact Except.noConfusion h
      · rename_i wh sB hwh
        split at h
        · exact Except.noConfusion h
        · rename_i qs0 s3 hrest
          injection h with h
          injection h with h1 h2
          subst h1
          subst h2
          simp only [processDefLoop]
          rw [hsel]
          dsimp only
          rw [hwh]
          dsimp only
          cases acc with
          | none => exact ih _ _ _ _ hrest
          | some q0 => exact ih _ _ _ _ hrest

/-- Claim C7: a query operation’s top-level selections are translated
in order into per-selection select queries and combined by a binary
union operator, folded left-associatively: with selections `A` then
`B`, the union’s left operand is `A`’s select query and its right
operand is `B`’s. -/
theorem union_left_assoc_in_order :
    (∀ (ctx : Ctx) (fuel : Nat) (defn : OperationDefinition) (s s1 : TState)
       (m : Option String) (qs : List SelectQuery) (s2 : TState),
      (defn.type = none ∨ defn.type = some "query") →
      populateVariableDefaults defn.varDecls s = .ok ((), s1) →
      getModule defn.directives none = .ok m →
      buildSelQueries ctx fuel m defn.selections s1 = .ok (qs, s2) →
      processDefinition ctx fuel defn s = .ok (foldUnion none qs, s2)) ∧
    (∀ a b : SelectQuery, foldUnion none [a, b] = some (unionNode a b)) := by
  constructor
  · intro ctx fuel defn s s1 m qs s2 htype hpop hmod hbuild
    unfold processDefinition
    rw [if_pos htype, hpop]
    dsimp only
    rw [hmod]
    dsimp only
    exact processDefLoop_of_buildSel _ _ _ _ _ hbuild
  · intro a b
    rfl

theorem union_left_assoc_in_order_witness :
    processDefinition c8Ctx 1 c7Defn c2S =
        .ok (foldUnion none [c7Q1, c7Q2], c2S) ∧
      foldUnion none [c7Q1, c7Q2] = some (unionNode c7Q1 c7Q2) :=
  ⟨union_left_assoc_in_order.1 c8Ctx 1 c7Defn c2S c2S none [c7Q1, c7Q2] c2S
      (Or.inl rfl) rfl rfl rfl,
   union_left_assoc_in_order.2 c7Q1 c7Q2⟩

/-- Counterexample to claim C8 as stated: with two top-level selections
carrying no nested selection set at all, translation does not succeed —
the source dereferences `selection_set.selections` on `None` and raises
an `AttributeError` — so no union of identity-defaulted select queries
is produced. -/
theorem two_bare_selections_crash :
    translateT 2 c8T c8DocNone [] = .error (.pyError "AttributeError") :=
  rfl

/-- Claim C8 (amended): for a document whose single query operation has
two top-level selections, each with no arguments and an *empty* nested
selection set, and whose root names exist in the schema, translation
succeeds and returns a binary union of the two select queries in
order, each selecting its root concept with an empty shape — no
identity field is added by the translator.  (With the nested selection
set absent entirely, translation instead fails with an attribute access
error; see the counterexample.) -/
theorem two_empty_selections_union
    (t : Translator) (onm : Option String) (n1 n2 k1 k2 : String)
    (fuel : Nat)
    (h1 : schemaGet t.schema n1 = .ok k1)
    (h2 : schemaGet t.schema n2 = .ok k2) :
    translateT (fuel + 1) t (twoEmptyDoc onm n1 n2) [] =
      .ok ([(onm, (some (unionNode (emptySelQuery none n1)
                                   (emptySelQuery none n2)), [], []))],
           { schema := t.schema, fragments := [], vars := [],
             readLog := [] }) := by
  simp only [translateT, translateCore, twoEmptyDoc, translateLoop,
    buildFragments, List.foldl, processDefinition, populateVariableDefaults,
    getModule, processDefLoop, processSelset, processSelectWhere,
    processPathspec, List.map, critVarsOf, List.filter, sortPairs, dinsert,
    h1, h2, emptySelQuery, unionNode]
  rfl

theorem two_empty_selections_union_witness :
    translateT 1 c8T (twoEmptyDoc none "User" "Group") [] =
      .ok ([(none, (some (unionNode (emptySelQuery none "User")
                                    (emptySelQuery none "Group")), [], []))],
           { schema := c8T.schema, fragments := [], vars := [],
             readLog := [] }) :=
  two_empty_selections_union c8T none "User" "Group" "User" "Group" 0 rfl rfl

theorem translateLoop_result_indep {ctx : Ctx} {fuel : Nat}
    {va : List (String × GQLValue)} :
    ∀ (defs : List Definition) (acc : List (Option String × OpResult))
      (s s2 : TState),
      Except.map Prod.fst (translateLoop ctx fuel va defs acc s) =
        Except.map Prod.fst (translateLoop ctx fuel va defs acc s2) := by
  intro defs
  induction defs with
  | nil => intro acc s s2; rfl
  | cons d rest ih =>
    intro acc s s2
    cases d with
    | frag f =>
      simp only [translateLoop]
      exact ih acc s s2
    | op defn =>
      simp only [translateLoop]

theorem translateT_result_schema_only {fuel : Nat} {t1 t2 : Translator}
    {doc : List Definition} {va : List (String × GQLValue)}
    (hs : t1.schema = t2.schema) :
    resultOf (translateT fuel t1 doc va) =
      resultOf (translateT fuel t2 doc va) := by
  unfold translateT translateCore resultOf
  rw [hs]
  have h := @translateLoop_result_indep
    ({ schema := t2.schema, fragments := buildFragments doc } : Ctx) fuel va
    doc []
    ({ vars := t1.vars, readLog := t1.readLog } : TState)
    ({ vars := t2.vars, readLog := t2.readLog } : TState)
  cases hr1 : translateLoop
      ({ schema := t2.schema, fragments := buildFragments doc } : Ctx)
      fuel va doc []
      ({ vars := t1.vars, readLog := t1.readLog } : TState) with
  | error e1 =>
    cases hr2 : translateLoop
        ({ schema := t2.schema, fragments := buildFragments doc } : Ctx)
        fuel va doc []
        ({ vars := t2.vars, readLog := t2.readLog } : TState) with
    | error e2 =>
      rw [hr1, hr2] at h
      simpa using h
    | ok p2 =>
      rw [hr1, hr2] at h
      exact absurd h (by simp [Except.map])
  | ok p1 =>
    cases hr2 : translateLoop
        ({ schema := t2.schema, fragments := buildFragments doc } : Ctx)
        fuel va doc []
        ({ vars := t2.vars, readLog := t2.readLog } : TState) with
    | error e2 =>
      rw [hr1, hr2] at h
      exact absurd h (by simp [Except.map])
    | ok p2 =>
      rw [hr1, hr2] at h
      obtain ⟨r1, s1⟩ := p1
      obtain ⟨r2, s2⟩ := p2
      simp only [Except.map] at h
      injection h with h
      subst h
      rfl

/-- Claim C9: for a fixed document, variable assignment, and schema
snapshot, the observable result of `translate` — the target ASTs and
critical-variable lists — is a pure function of those inputs: it does
not depend on the instance fields left over from earlier calls, and
repeated calls (including on the instance returned by a successful
call) produce structurally identical results. -/
theorem translation_pure_and_deterministic :
    (∀ (fuel : Nat) (t1 t2 : Translator) (doc : List Definition)
       (va : List (String × GQLValue)),
      t1.schema = t2.schema →
      resultOf (translateT fuel t1 doc va) =
        resultOf (translateT fuel t2 doc va)) ∧
    (∀ (fuel : Nat) (t : Translator) (doc : List Definition)
       (va : List (String × GQLValue))
       (res : List (Option String × OpResult)) (t' : Translator),
      translateT fuel t doc va = .ok (res, t') →
      resultOf (translateT fuel t' doc va) = .ok res) := by
  constructor
  · intro fuel t1 t2 doc va hs
    exact translateT_result_schema_only hs
  · intro fuel t doc va res t' h
    have hsch : t'.schema = t.schema := by
      unfold translateT at h
      split at h
      · exact Except.noConfusion h
      · injection h with h
        injection h with ha hb
        rw [← hb]
    calc resultOf (translateT fuel t' doc va)
        = resultOf (translateT fuel t doc va) :=
          translateT_result_schema_only hsch
      _ = .ok res := by rw [h]; rfl

theorem translation_pure_and_deterministic_witness :
    resultOf (translateT 3 c1T c1Doc c1Vars) =
        resultOf (translateT 3 c9T2 c1Doc c1Vars) ∧
      resultOf (translateT 3 c1TAfter c1Doc c1Vars) = .ok c1Res :=
  ⟨translation_pure_and_deterministic.1 3 c1T c9T2 c1Doc c1Vars rfl,
   translation_pure_and_deterministic.2 3 c1T c1Doc c1Vars c1Res c1TAfter
     rfl⟩

/-- Claim C10: a filter argument whose decoded value is null (a null
literal, or a variable currently bound to null) skips argument type
validation entirely — `_validate_arg` accepts a null value for every
schema and path, consulting neither — yet its comparison triple is
still emitted into the result exactly like any other argument. -/
theorem null_filter_value_skips_validation :
    (∀ (ctx : Ctx) (steps : List QLPathStep) (asSeq : Bool),
      validateArg ctx steps .vnull asSeq = .ok ()) ∧
    (∀ (ctx : Ctx) (pfx : List QLPathStep) (arg : Argument)
       (rest : List Argument) (s : TState) (hv : QLExpr),
      (arg.value = .scalar .vnull ∨
        ∃ v c, arg.value = .var v ∧ alookup s.vars v = some (.vnull, c)) →
      processLiteral arg.value = .ok hv →
      processArguments ctx pfx (arg :: rest) s =
        (match processArguments ctx pfx rest s with
         | .error e => .error e
         | .ok (res, s1) =>
           .ok ((QLExpr.path
                  (pfx ++ (pySplit (parseArgName arg.name).2 "__").map
                    QLPathStep.linkExpr) none,
                 (parseArgName arg.name).1, hv) :: res, s1))) := by
  constructor
  · intro ctx steps asSeq
    rfl
  · intro ctx pfx arg rest s hv hnull hlit
    obtain ⟨anm, av⟩ := arg
    simp only at hnull hlit
    rcases hnull with hav | ⟨v, c, hav, hl⟩
    · subst hav
      simp only [processLiteral] at hlit
      injection hlit with hlit
      subst hlit
      simp only [processArguments, processLiteral, decodeCheckValue,
        constIndexTruthy, validateArg]
      simp
    · subst hav
      simp only [processLiteral] at hlit
      injection hlit with hlit
      subst hlit
      by_cases hvd : v.drop 1 = ""
      · simp only [processArguments, processLiteral, decodeCheckValue,
          constIndexTruthy, validateArg]
        simp [hvd]
      · simp only [processArguments, processLiteral, decodeCheckValue,
          constIndexTruthy, validateArg]
        simp [hvd, hl]

theorem null_filter_value_skips_validation_witness :
    validateArg c6Ctx [] GQLValue.vnull true = .ok () ∧
      processArguments c6Ctx [.pathStep "User"]
          [⟨"name__eq", .var "$x"⟩] c10S =
        (match processArguments c6Ctx [.pathStep "User"] [] c10S with
         | .error e => .error e
         | .ok (res, s1) =>
           .ok ((QLExpr.path
                  ([QLPathStep.pathStep "User"] ++
                    (pySplit (parseArgName "name__eq").2 "__").map
                      QLPathStep.linkExpr) none,
                 (parseArgName "name__eq").1,
                 QLExpr.constant .vnull (some "x")) :: res, s1)) :=
  ⟨null_filter_value_skips_validation.1 c6Ctx [] true,
   null_filter_value_skips_validation.2 c6Ctx [.pathStep "User"]
     ⟨"name__eq", .var "$x"⟩ [] c10S (QLExpr.constant .vnull (some "x"))
     (Or.inr ⟨"$x", false, rfl, rfl⟩) rfl⟩

end GQLTrans
